import Mathlib

/-!
Shallow embedding of `emusavelib/ps1mc.py` (PS1 memory-card codec and block
allocator) and proofs about its claimed properties.

Bytes are modelled as `Nat` values; byte strings as `List Nat`.  ctypes
structures become Lean structures whose byte serialization is made explicit
where the code XORs over raw bytes.  In-place mutation becomes explicit state
passing: each mutating operation returns the error raised (if any) together
with the post-state, so that "the image is left unchanged" is expressible.
Failure modes of the Python code (a silent `return`, an `IOError`, a
`TypeError` from indexing with `None`, a ctypes `ValueError`, the
`sys.exit(1)` self-loop abort, and divergence of an unguarded cycle walk) are
named by the `MCError` enumeration.
-/

namespace Ps1mc

/-- Error outcomes of the operations in `ps1mc.py`.  `corruptChain` models the
`sys.exit(1)` abort in `MemoryCard._gather_save` (in the source `sys` is not
even imported, so in practice a `NameError` aborts the caller; either way the
traversal and its caller fail).  `nonTermination` models divergence of the
unguarded `while` loop on a cycle longer than a self-loop.  `typeError` models
the `TypeError` raised by `directory_frames[None]`.  `valueError` models
ctypes `ValueError`s (field value too long, buffer too small).
`insufficientSpace` models the early `return` of `add_save` after logging
"Not enough free blocks".  `unicodeDecodeError` models the
`UnicodeDecodeError` raised by the `DirectoryFrame.filename` property when a
name field's stored bytes are not valid UTF-8. -/
inductive MCError where
  | unrecognizedFormat
  | corruptChain
  | nonTermination
  | indexError
  | typeError
  | valueError
  | insufficientSpace
  | unicodeDecodeError
deriving Repr, DecidableEq

deriving instance DecidableEq for Except

/-- Block-state constants of `DirectoryFrame`. -/
def BLOCK_AVAILABLE : Nat := 0xA0
def BLOCK_UNUSABLE : Nat := 0xFF
def BLOCK_FIRST : Nat := 0x51
def BLOCK_MIDDLE : Nat := 0x52
def BLOCK_LAST : Nat := 0x53

/-- `DirectoryFrame` (`ps1mc.py` lines 14-90): a 128-byte directory entry.
Field order and sizes follow `_fields_`: `block_state` (1), `reserved` (3),
`save_length` (`c_int32`, 4), `next_block` (1), `next_frame` (1),
`country_code` (2), `product_code` (10), `identifier` (8), `_padding` (97),
`xor` (1). -/
structure DirectoryFrame where
  block_state : Nat
  reserved : List Nat
  save_length : Nat
  next_block : Nat
  next_frame : Nat
  country_code : List Nat
  product_code : List Nat
  identifier : List Nat
  padding : List Nat
  xor : Nat
deriving Repr, DecidableEq

/-- Little-endian serialization of the `c_int32` field `save_length`.  Every
value the code stores there is `8192 * blocks` with `blocks ≤ 255`, hence
non-negative and well below `2^31`, so `Nat` is adequate. -/
def int32le (n : Nat) : List Nat :=
  [n % 256, n / 256 % 256, n / 65536 % 256, n / 16777216 % 256]

/-- The first 127 bytes of a frame's serialization: everything except the
final `xor` byte (`bytearray(self)[:-1]`). -/
def frameBytes127 (f : DirectoryFrame) : List Nat :=
  f.block_state :: (f.reserved ++ int32le f.save_length ++
    [f.next_block, f.next_frame] ++ f.country_code ++ f.product_code ++
    f.identifier ++ f.padding)

/-- Running XOR of a byte list, starting from 0. -/
def xorBytes (l : List Nat) : Nat := l.foldl Nat.xor 0

/-- `DirectoryFrame.fix_xor`: recompute the checksum byte from the other 127
bytes. -/
def DirectoryFrame.fix_xor (f : DirectoryFrame) : DirectoryFrame :=
  { f with xor := xorBytes (frameBytes127 f) }

/-- A zero-filled frame, as produced by ctypes zero-initialization or by
`memset(addressof(frame), 0, sizeof(frame))`. -/
def blankFrame : DirectoryFrame :=
  { block_state := 0, reserved := List.replicate 3 0, save_length := 0,
    next_block := 0, next_frame := 0, country_code := List.replicate 2 0,
    product_code := List.replicate 10 0, identifier := List.replicate 8 0,
    padding := List.replicate 97 0, xor := 0 }

/-- `DirectoryFrame.__init__` on zeroed memory (fresh frame or frame reset by
`delete_save_at_index`): set `block_state` to `BLOCK_AVAILABLE` and fix the
checksum. -/
def availFrame : DirectoryFrame :=
  DirectoryFrame.fix_xor { blankFrame with block_state := BLOCK_AVAILABLE }

/-- A reserved frame as initialized by `HeaderBlock.__init__`: state
`BLOCK_UNUSABLE`, `reserved`/`next_frame`/`next_block` filled with 0xFF.
`fix_xor` is NOT called on these frames in the source. -/
def unusableFrame : DirectoryFrame :=
  { blankFrame with
    block_state := BLOCK_UNUSABLE,
    reserved := List.replicate 3 0xFF, next_block := 0xFF, next_frame := 0xFF }

/-- The value read back from a ctypes `c_char * n` field: the stored bytes up
to (excluding) the first NUL. -/
def cvalue (l : List Nat) : List Nat := l.takeWhile (fun b => decide (b ≠ 0))

/-- A UTF-8 continuation byte (`10xxxxxx`). -/
def utf8Cont (b : Nat) : Bool := decide (0x80 ≤ b) && decide (b < 0xC0)

/-- Validity of a byte string under the strict `utf-8` codec of Python 2.7
(the codebase's target: the GUI passes `buffer(self.mc)`, a Python-2-only
builtin).  Sequences: `00-7F`; `C2-DF` + 1 continuation; `E0-EF` + 2
continuations, with `E0` requiring `A0-BF` second (no overlongs; unlike
Python 3, the 2.7 codec accepts the surrogate range `ED A0-BF ..`);
`F0-F4` + 3 continuations, with `F0` requiring `90-BF` second and `F4`
requiring `80-8F` second (no overlongs, nothing above U+10FFFF).  Start
bytes `80-C1` and `F5-FF` are invalid.  The fuel argument only bounds the
recursion; any fuel at least the list length gives the decoder's answer. -/
def utf8ValidAux : Nat → List Nat → Bool
  | _, [] => true
  | 0, _ :: _ => false
  | fuel + 1, b :: rest =>
    if b < 0x80 then utf8ValidAux fuel rest
    else if b < 0xC2 then false
    else if b < 0xE0 then
      match rest with
      | c1 :: rest2 => utf8Cont c1 && utf8ValidAux fuel rest2
      | [] => false
    else if b < 0xF0 then
      match rest with
      | c1 :: c2 :: rest2 =>
        (if b = 0xE0 then decide (0xA0 ≤ c1) && decide (c1 < 0xC0)
         else utf8Cont c1) && utf8Cont c2 && utf8ValidAux fuel rest2
      | _ => false
    else if b < 0xF5 then
      match rest with
      | c1 :: c2 :: c3 :: rest2 =>
        (if b = 0xF0 then decide (0x90 ≤ c1) && decide (c1 < 0xC0)
         else if b = 0xF4 then decide (0x80 ≤ c1) && decide (c1 < 0x90)
         else utf8Cont c1) && utf8Cont c2 && utf8Cont c3 &&
          utf8ValidAux fuel rest2
      | _ => false
    else false

/-- The byte string decodes under the strict `utf-8` codec. -/
def utf8Valid (l : List Nat) : Bool := utf8ValidAux l.length l

/-- The `DirectoryFrame.filename` property decodes without error: each of the
three `c_char` name fields, read back NUL-truncated, is valid UTF-8.  The
property (`ps1mc.py` lines 79-90) calls `decode('utf-8')` on each field
separately, so each field must decode on its own; invalid bytes raise
`UnicodeDecodeError` at the property's caller. -/
def DirectoryFrame.filenameDecodes (f : DirectoryFrame) : Bool :=
  utf8Valid (cvalue f.country_code) && utf8Valid (cvalue f.product_code) &&
    utf8Valid (cvalue f.identifier)

/-- `DirectoryFrame.filename`: concatenation of the values of `country_code`,
`product_code` and `identifier`.  The property returns the concatenation of
the three fields' UTF-8 decodes; decoded strings are represented here by
their UTF-8 encodings, so the property's value is this byte concatenation,
defined when `filenameDecodes` holds — `get_save_at_index`, the property's
caller, checks that guard and propagates `unicodeDecodeError` otherwise. -/
def DirectoryFrame.filename (f : DirectoryFrame) : List Nat :=
  cvalue f.country_code ++ cvalue f.product_code ++ cvalue f.identifier

/-- Writing a ctypes `c_char * size` field with a value `v` of length at most
`size`: the bytes of `v` are copied, a terminating NUL is added when there is
room, and the remaining stored bytes are left untouched. -/
def setCharField (old v : List Nat) (size : Nat) : List Nat :=
  if v.length = size then v else ((v ++ [0]) ++ old.drop (v.length + 1)).take size

/-- `Save` (`ps1mc.py` lines 190-232): a filename together with the raw save
data (metadata included).  `metadata` fields are read directly from the first
bytes of `data`, exactly as `MetadataBlock.from_buffer_copy` overlays them:
`magic` is bytes 0-1 (a `c_char * 2`, so NUL-truncated on read),
`save_block_count` is byte 3. -/
structure Save where
  filename : List Nat
  data : List Nat
deriving Repr, DecidableEq

/-- `Save.metadata.magic`. -/
def Save.metadata_magic (s : Save) : List Nat := cvalue (s.data.take 2)

/-- `Save.blocks`: `metadata.save_block_count`, byte 3 of the data. -/
def Save.blocks (s : Save) : Nat := s.data.getD 3 0

/-- `Save.is_valid`: the if-chain of checks, in source order. -/
def Save.is_valid (s : Save) : Bool :=
  if s.metadata_magic ≠ [83, 67] then false
  else if s.data.length % 8192 ≠ 0 then false
  else if s.data.length / 8192 ≠ s.blocks then false
  else true

/-- `MemoryCard` (header block plus 15 data blocks).  The header's fields are
inlined: `magic`/`hxor`/`filler` and friends from `HeaderBlock`, the 15 live
`directory_frames`, the 20 reserved `unused_frames`, and the 15 8192-byte data
blocks. -/
structure MemoryCard where
  magic : List Nat
  pad0 : List Nat
  hxor : Nat
  frames : List DirectoryFrame
  unused : List DirectoryFrame
  filler : List Nat
  other : List Nat
  data : List (List Nat)
deriving Repr, DecidableEq

/-- A freshly formatted card: `MemoryCard()` constructed without input data,
whose `__init__` installs `HeaderBlock()` (`ps1mc.py` lines 117-134); the data
blocks are ctypes zero-initialized. -/
def freshCard : MemoryCard :=
  { magic := [77, 67], pad0 := List.replicate 125 0, hxor := 0xE,
    frames := List.replicate 15 availFrame,
    unused := List.replicate 20 unusableFrame,
    filler := List.replicate 3456 0xFF, other := List.replicate 128 0,
    data := List.replicate 15 (List.replicate 8192 0) }

/-- Read directory frame `i` (the ctypes array always has 15 entries; the
default is never reached on states with `frames.length = 15`). -/
def framesGet (mc : MemoryCard) (i : Nat) : DirectoryFrame :=
  mc.frames.getD i blankFrame

/-- Read data block `i`. -/
def dataGet (mc : MemoryCard) (i : Nat) : List Nat :=
  mc.data.getD i []

/-- Write directory frame `i`. -/
def setFrame (mc : MemoryCard) (i : Nat) (f : DirectoryFrame) : MemoryCard :=
  { mc with frames := mc.frames.set i f }

/-- Write data block `i`. -/
def setBlock (mc : MemoryCard) (i : Nat) (b : List Nat) : MemoryCard :=
  { mc with data := mc.data.set i b }

/-- `MemoryCard._detect_offset`: container-format detection on the first 12
bytes.  Byte values: `"MC"` = [77, 67], `"PMV"` = [80, 77, 86],
`"123-456-STD"` = [49, 50, 51, 45, 52, 53, 54, 45, 83, 84, 68]. -/
def detect_offset (d : List Nat) : Except MCError Nat :=
  let magic_bytes := d.take 12
  if magic_bytes.take 2 = [77, 67] then .ok 0
  else if (magic_bytes.drop 1).take 3 = [80, 77, 86] then .ok 0x80
  else if magic_bytes.take 11 = [49, 50, 51, 45, 52, 53, 54, 45, 83, 84, 68]
    then .ok 0xF40
  else .error .unrecognizedFormat

/-- One step of `MemoryCard._gather_save`'s `while` loop, with explicit fuel.
The source loop has no bound: a walk that revisits a non-self-looping index
repeats forever (the guard only catches `index == directory_frame.next_block`).
Any terminating walk visits at most 15 distinct indices (an index outside
0-14 other than 0xFF raises `IndexError`), so fuel 16 reproduces the source
exactly, with `nonTermination` standing for divergence. -/
def gatherAux (mc : MemoryCard) : Nat → Nat → Except MCError (List Nat)
  | 0, _ => .error .nonTermination
  | fuel + 1, index =>
    if index = 0xFF then .ok []
    else if index < 15 then
      let frame := framesGet mc index
      if index = frame.next_block then .error .corruptChain
      else
        match gatherAux mc fuel frame.next_block with
        | .error e => .error e
        | .ok rest => .ok (index :: rest)
    else .error .indexError

/-- `MemoryCard._gather_save`, returning the chain of block indices. -/
def gatherSave (mc : MemoryCard) (first_block_index : Nat) :
    Except MCError (List Nat) :=
  gatherAux mc 16 first_block_index

/-- `MemoryCard.get_save_at_index`: gather the chain, concatenate the raw
bytes of its data blocks, and take the filename from the chain's first frame
(`directory_frames[0]` of the gathered list; empty gather raises
`IndexError`).  Evaluating the `filename` property decodes the head frame's
name fields, raising `UnicodeDecodeError` when they are not valid UTF-8. -/
def get_save_at_index (mc : MemoryCard) (i : Nat) : Except MCError Save :=
  match gatherSave mc i with
  | .error e => .error e
  | .ok [] => .error .indexError
  | .ok (h :: t) =>
    if (framesGet mc h).filenameDecodes = true then
      .ok { filename := (framesGet mc h).filename,
            data := ((h :: t).map (dataGet mc)).flatten }
    else .error .unicodeDecodeError

/-- Indices 0-14 whose frame is in state `BLOCK_FIRST`, in index order: the
iteration order of `get_saves` and `get_slot_saves`. -/
def rootIndexes (mc : MemoryCard) : List Nat :=
  (List.range 15).filter (fun i => decide ((framesGet mc i).block_state = BLOCK_FIRST))

/-- `MemoryCard.get_saves`: decode every First-rooted entry in index order.
An exception thrown while decoding one entry aborts the whole enumeration,
exactly as in the source. -/
def get_saves (mc : MemoryCard) : Except MCError (List Save) :=
  (rootIndexes mc).mapM (get_save_at_index mc)

/-- `MemoryCard.get_slot_saves`: the same decoding keyed by first-slot
index. -/
def get_slot_saves (mc : MemoryCard) : Except MCError (List (Nat × Save)) :=
  (rootIndexes mc).mapM (fun i =>
    match get_save_at_index mc i with
    | .error e => .error e
    | .ok s => .ok (i, s))

/-- Indices 0-14 whose frame is in state `BLOCK_AVAILABLE`, in index order:
`free_block_indexes` as gathered at the start of `add_save`. -/
def freeIndexes (mc : MemoryCard) : List Nat :=
  (List.range 15).filter (fun i => decide ((framesGet mc i).block_state = BLOCK_AVAILABLE))

/-- The frame contents written by iteration `i` of `add_save`'s loop onto the
previous frame contents `old`.  The loop body is a sequence of independent
field assignments, flattened here into one record update: the
country/product/identifier `c_char` writes leave bytes past the terminator
untouched; `save_length` is `8192 * blocks` on the First frame and 0
otherwise; `block_state` is First at position 0 (also for one-block saves),
Last at the final position and Middle in between (the source writes Middle
then overwrites it with Last); the link fields point to the next allocated
index or hold the 0xFF sentinel; `reserved`, `_padding` and the old `xor`
survive into the final `fix_xor` recomputation. -/
def writtenFrame (s : Save) (free : List Nat) (i : Nat) (old : DirectoryFrame) :
    DirectoryFrame :=
  DirectoryFrame.fix_xor { old with
    country_code := setCharField old.country_code (s.filename.take 2) 2,
    product_code := setCharField old.product_code ((s.filename.drop 2).take 10) 10,
    identifier := setCharField old.identifier (s.filename.drop 12) 8,
    save_length := if i = 0 then 8192 * s.blocks else 0,
    block_state :=
      if i = 0 then BLOCK_FIRST
      else if i = s.blocks - 1 then BLOCK_LAST else BLOCK_MIDDLE,
    next_block := if i ≠ s.blocks - 1 then free.getD (i + 1) 0 else 0xFF,
    next_frame := if i ≠ s.blocks - 1 then 0 else 0xFF }

/-- The 8192-byte chunk of the save data written into the data block at
iteration `i` (`save.data[8192 * i:8192 * (i + 1)]`). -/
def saveChunk (s : Save) (i : Nat) : List Nat :=
  (s.data.drop (8192 * i)).take 8192

/-- One iteration of `add_save`'s allocation loop.  The `c_char` writes to
`country_code` and `product_code` always fit (their values are slices of at
most 2 resp. 10 bytes); the `identifier` write raises `ValueError` when
`filename[12:]` is longer than 8 bytes, after the first two fields of this
frame were already stored.  `DataBlock.from_buffer_copy(chunk)` raises
`ValueError` when the chunk is shorter than 8192 bytes, after the frame was
fully written. -/
def addIter (s : Save) (free : List Nat) (i : Nat) (mc : MemoryCard) :
    Option MCError × MemoryCard :=
  let fbi := free.getD i 0
  let fn := s.filename
  let old := framesGet mc fbi
  if 8 < (fn.drop 12).length then
    (some .valueError, setFrame mc fbi
      { old with
        country_code := setCharField old.country_code (fn.take 2) 2,
        product_code := setCharField old.product_code ((fn.drop 2).take 10) 10 })
  else
    let mc1 := setFrame mc fbi (writtenFrame s free i old)
    let chunk := saveChunk s i
    if chunk.length < 8192 then (some .valueError, mc1)
    else (none, setBlock mc1 fbi chunk)

/-- The `for i in range(save.blocks)` loop of `add_save`, processing the given
list of iteration indices; an exception aborts the rest of the loop with the
state mutated so far. -/
def addLoop (s : Save) (free : List Nat) :
    List Nat → MemoryCard → Option MCError × MemoryCard
  | [], mc => (none, mc)
  | i :: rest, mc =>
    match addIter s free i mc with
    | (some e, mc1) => (some e, mc1)
    | (none, mc1) => addLoop s free rest mc1

/-- `MemoryCard.add_save`: gather the free block indices; if fewer than
`save.blocks` are free, log and return with nothing mutated; otherwise run the
allocation loop. -/
def add_save (mc : MemoryCard) (s : Save) : Option MCError × MemoryCard :=
  let free := freeIndexes mc
  if free.length < s.blocks then (some .insufficientSpace, mc)
  else addLoop s free (List.range s.blocks) mc

/-- `MemoryCard.delete_save_at_index`: gather the chain (an exception leaves
the card untouched, since all mutation happens after `_gather_save` returns),
then reset every gathered frame to a fresh Available frame with fixed
checksum and zero every gathered data block. -/
def delete_save_at_index (mc : MemoryCard) (i : Nat) :
    Option MCError × MemoryCard :=
  match gatherSave mc i with
  | .error e => (some e, mc)
  | .ok chain =>
    (none,
      { mc with
        frames := chain.foldl (fun fs j => fs.set j availFrame) mc.frames,
        data := chain.foldl (fun ds j => ds.set j (List.replicate 8192 0)) mc.data })

/-- `MemoryCard.delete_save`: look the target up by filename among the slot
saves, keeping the last match (the source loop keeps overwriting `index`).
When no slot matches, `index` stays `None` and
`delete_save_at_index(None)` indexes `directory_frames` with `None`, raising
`TypeError` before any mutation. -/
def delete_save (mc : MemoryCard) (target : Save) : Option MCError × MemoryCard :=
  match get_slot_saves mc with
  | .error e => (some e, mc)
  | .ok slots =>
    match ((slots.filter (fun p => decide (p.2.filename = target.filename))).map
        Prod.fst).getLast? with
    | none => (some .typeError, mc)
    | some i => delete_save_at_index mc i

/-- Number of Available directory frames. -/
def availCount (mc : MemoryCard) : Nat := (freeIndexes mc).length

/-- All chains rooted at First-state frames, in index order of their roots. -/
def chainsOf (mc : MemoryCard) : Except MCError (List (List Nat)) :=
  (rootIndexes mc).mapM (gatherSave mc)

/-- Total number of blocks claimed by First-rooted chains; 0 when some chain
walk fails (on such a card the sum is undefined in the source: the walk
raises or diverges). -/
def chainBlockSum (mc : MemoryCard) : Nat :=
  match chainsOf mc with
  | .ok cs => (cs.map List.length).sum
  | .error _ => 0

/-- The chain gathered at an index, with failures mapped to the empty chain;
a proof-side accessor used only where the walk is known to succeed. -/
def chainOf (mc : MemoryCard) (r : Nat) : List Nat :=
  match gatherSave mc r with
  | .ok c => c
  | .error _ => []

/-- The save decoded at an index, with failures mapped to an empty save; a
proof-side accessor used only where the decode is known to succeed. -/
def extractSave (mc : MemoryCard) (r : Nat) : Save :=
  match get_save_at_index mc r with
  | .ok y => y
  | .error _ => { filename := [], data := [] }

/-- Structural well-formedness of a card image: 15 frames and 15 data blocks,
every First-rooted chain walk succeeds, no block index is claimed by two
chains (nor twice by one), and the Available frames are exactly the frames
claimed by no chain. -/
def Valid (mc : MemoryCard) : Prop :=
  mc.frames.length = 15 ∧ mc.data.length = 15 ∧
  ∃ cs, chainsOf mc = .ok cs ∧ cs.flatten.Nodup ∧
    ∀ j, j < 15 →
      ((framesGet mc j).block_state = BLOCK_AVAILABLE ↔ j ∉ cs.flatten)

/-! ### Concrete instances used to witness and to refute claims -/

/-- A valid one-block save: magic `"SC"`, `save_block_count` 1, 8192 bytes of
data, and the 20-byte filename `"ABCDEFGHIJKLMNOPQRST"`. -/
def exSave : Save :=
  { filename := [65, 66, 67, 68, 69, 70, 71, 72, 73, 74,
                 75, 76, 77, 78, 79, 80, 81, 82, 83, 84],
    data := 83 :: 67 :: 0 :: 1 :: List.replicate 8188 0 }

/-- The same candidate with 16384 bytes of data but `save_block_count` still
1: scenario 3 of the spec. -/
def exSaveWrongCount : Save :=
  { filename := exSave.filename,
    data := 83 :: 67 :: 0 :: 1 :: List.replicate 16380 0 }

/-- A save whose metadata declares 16 blocks: more than any card offers. -/
def exSaveHuge : Save :=
  { filename := exSave.filename,
    data := 83 :: 67 :: 0 :: 16 :: List.replicate 8188 0 }

/-- A frame in state First whose `next_block` points at itself. -/
def selfLoopFrame : DirectoryFrame :=
  { blankFrame with block_state := BLOCK_FIRST, next_block := 0 }

/-- A frame in state First heading a one-block chain. -/
def oneBlockFirstFrame : DirectoryFrame :=
  { blankFrame with
    block_state := BLOCK_FIRST, next_block := 0xFF, next_frame := 0xFF }

/-- A fresh card whose frame 0 self-loops: `next_block` points back at frame
0 itself. -/
def selfLoopCard : MemoryCard :=
  { freshCard with frames := freshCard.frames.set 0 selfLoopFrame }

/-- A card holding a one-block save in slot 1 next to the self-looping frame
0. -/
def selfLoopCard2 : MemoryCard :=
  { freshCard with
    frames := (freshCard.frames.set 0 selfLoopFrame).set 1 oneBlockFirstFrame }

/-- A card holding one two-block save in slots 1 and 2 (frame 1 First with
`next_block` 2, frame 2 Last). -/
def twoBlockCard : MemoryCard :=
  { freshCard with
    frames := (freshCard.frames.set 1
        { blankFrame with block_state := BLOCK_FIRST, next_block := 2 }).set 2
        { blankFrame with
          block_state := BLOCK_LAST, next_block := 0xFF, next_frame := 0xFF } }

/-- A card holding two byte-for-byte identical one-block saves in slots 0 and
1 (both frames carry the same all-NUL name fields; both data blocks are
zero). -/
def twinSaveCard : MemoryCard :=
  { freshCard with
    frames := (freshCard.frames.set 0 oneBlockFirstFrame).set 1
      oneBlockFirstFrame }

/-- A card whose slot-0 one-block First frame stores `0xFF 0xFF` — invalid
UTF-8 — in its `country_code` field. -/
def badNameCard : MemoryCard :=
  { freshCard with
    frames := freshCard.frames.set 0
      { oneBlockFirstFrame with country_code := [0xFF, 0xFF] } }

/-! ### Basic lemmas about the state accessors -/

theorem framesGet_setFrame (mc : MemoryCard) (i j : Nat) (f : DirectoryFrame)
    (h : i < mc.frames.length) :
    framesGet (setFrame mc i f) j = if j = i then f else framesGet mc j := by
  rcases eq_or_ne j i with rfl | hne
  · simp [framesGet, setFrame, List.getD_eq_getElem?_getD,
      List.getElem?_set_eq_of_lt _ h]
  · simp [framesGet, setFrame, List.getD_eq_getElem?_getD,
      List.getElem?_set', hne, Ne.symm hne]

theorem dataGet_setBlock (mc : MemoryCard) (i j : Nat) (b : List Nat)
    (h : i < mc.data.length) :
    dataGet (setBlock mc i b) j = if j = i then b else dataGet mc j := by
  rcases eq_or_ne j i with rfl | hne
  · simp [dataGet, setBlock, List.getD_eq_getElem?_getD,
      List.getElem?_set_eq_of_lt _ h]
  · simp [dataGet, setBlock, List.getD_eq_getElem?_getD,
      List.getElem?_set', hne, Ne.symm hne]

theorem framesGet_setBlock (mc : MemoryCard) (i j : Nat) (b : List Nat) :
    framesGet (setBlock mc i b) j = framesGet mc j := rfl

theorem dataGet_setFrame (mc : MemoryCard) (i j : Nat) (f : DirectoryFrame) :
    dataGet (setFrame mc i f) j = dataGet mc j := rfl

theorem frames_length_setFrame (mc : MemoryCard) (i : Nat) (f : DirectoryFrame) :
    (setFrame mc i f).frames.length = mc.frames.length := List.length_set ..

theorem frames_length_setBlock (mc : MemoryCard) (i : Nat) (b : List Nat) :
    (setBlock mc i b).frames.length = mc.frames.length := rfl

theorem data_length_setFrame (mc : MemoryCard) (i : Nat) (f : DirectoryFrame) :
    (setFrame mc i f).data.length = mc.data.length := rfl

theorem data_length_setBlock (mc : MemoryCard) (i : Nat) (b : List Nat) :
    (setBlock mc i b).data.length = mc.data.length := List.length_set ..

/-! ### Claim theorems -/

/-- C3: for every image and every save whose declared block count exceeds the
number of frames in state Available, `add_save` fails with
`InsufficientSpace` (the logged early return) and returns with every
directory frame and data block byte-for-byte unchanged: the post-state is the
input image itself. -/
theorem claim3_insufficient_space_unchanged (mc : MemoryCard) (s : Save)
    (h : (freeIndexes mc).length < s.blocks) :
    add_save mc s = (some MCError.insufficientSpace, mc) := by
  simp [add_save, h]

/-- Witness for C3: a fresh card has 15 Available frames, and adding a save
declaring 16 blocks fails with `InsufficientSpace`, card unchanged. -/
theorem claim3_witness :
    (freeIndexes freshCard).length < exSaveHuge.blocks ∧
    add_save freshCard exSaveHuge = (some MCError.insufficientSpace, freshCard) :=
  ⟨by decide, claim3_insufficient_space_unchanged freshCard exSaveHuge (by decide)⟩

/-- C7: a freshly formatted image has all 15 live directory frames in state
Available with checksum byte equal to the XOR of the frame's other 127 bytes,
and all 20 reserved frames in state Unusable with `reserved`, `next_block`
and `next_frame` filled with 0xFF and checksum byte equal to the XOR of the
other 127 bytes (the source never calls `fix_xor` on reserved frames, but the
six 0xFF bytes cancel, so the zero checksum byte is nevertheless correct). -/
theorem claim7_fresh_format :
    freshCard.frames.length = 15 ∧ freshCard.unused.length = 20 ∧
    (freshCard.frames.all fun f =>
      f.block_state == BLOCK_AVAILABLE &&
      f.xor == xorBytes (frameBytes127 f)) = true ∧
    (freshCard.unused.all fun f =>
      f.block_state == BLOCK_UNUSABLE &&
      f.reserved == List.replicate 3 0xFF &&
      f.next_block == 0xFF && f.next_frame == 0xFF &&
      f.xor == xorBytes (frameBytes127 f)) = true :=
  ⟨rfl, rfl, by decide, by decide⟩

/-- C8: `is_valid` returns true iff the metadata magic is `"SC"`, the data
length is a multiple of 8192, and the data length divided by 8192 equals the
declared block count; a save with magic `"SC"`, `save_block_count` 1 and 8192
bytes of data is valid, and the same save with 16384 bytes of data is
invalid. -/
theorem claim8_is_valid_iff :
    (∀ s : Save, s.is_valid = true ↔
      (s.metadata_magic = [83, 67] ∧ s.data.length % 8192 = 0 ∧
        s.data.length / 8192 = s.blocks)) ∧
    exSave.is_valid = true ∧ exSaveWrongCount.is_valid = false := by
  refine ⟨fun s => ?_, ?_, ?_⟩
  · unfold Save.is_valid
    split_ifs with h1 h2 h3 <;> simp_all
  · have hm : exSave.metadata_magic = [83, 67] := by decide
    have hb : exSave.blocks = 1 := by decide
    have hl : exSave.data.length = 8192 := by
      simp only [exSave, List.length_cons, List.length_replicate]
    simp [Save.is_valid, hm, hb, hl]
  · have hm : exSaveWrongCount.metadata_magic = [83, 67] := by decide
    have hb : exSaveWrongCount.blocks = 1 := by decide
    have hl : exSaveWrongCount.data.length = 16384 := by
      simp only [exSaveWrongCount, List.length_cons, List.length_replicate]
    simp [Save.is_valid, hm, hb, hl]

/-- Witness for C8: the general equivalence instantiated at the valid
one-block candidate. -/
theorem claim8_witness :
    exSave.is_valid = true ↔
      (exSave.metadata_magic = [83, 67] ∧ exSave.data.length % 8192 = 0 ∧
        exSave.data.length / 8192 = exSave.blocks) :=
  claim8_is_valid_iff.1 exSave

/-- C9: format detection returns offset 0 when bytes 0-1 are `"MC"`, offset
0x80 when bytes 1-3 are `"PMV"`, offset 0xF40 when bytes 0-10 are
`"123-456-STD"`, and fails with `UnrecognizedFormat` otherwise.  (The three
signatures are mutually exclusive, so the if-chain order does not matter; the
function is pure, so it has no side effects on the input.) -/
theorem claim9_detect_offset (d : List Nat) :
    (d.take 2 = [77, 67] → detect_offset d = .ok 0) ∧
    ((d.drop 1).take 3 = [80, 77, 86] → detect_offset d = .ok 0x80) ∧
    (d.take 11 = [49, 50, 51, 45, 52, 53, 54, 45, 83, 84, 68] →
      detect_offset d = .ok 0xF40) ∧
    (d.take 2 ≠ [77, 67] → (d.drop 1).take 3 ≠ [80, 77, 86] →
      d.take 11 ≠ [49, 50, 51, 45, 52, 53, 54, 45, 83, 84, 68] →
      detect_offset d = .error .unrecognizedFormat) := by
  have ha : (d.take 12).take 2 = d.take 2 := by
    rw [List.take_take]; rfl
  have hb : ((d.take 12).drop 1).take 3 = (d.drop 1).take 3 := by
    rw [List.drop_take, List.take_take]; rfl
  have hc : (d.take 12).take 11 = d.take 11 := by
    rw [List.take_take]; rfl
  have e0 : ∀ L : List Nat, d.take 2 = L → d[0]? = L[0]? := by
    intro L h; rw [← h, List.getElem?_take, if_pos] <;> omega
  have e1 : ∀ L : List Nat, d.take 2 = L → d[1]? = L[1]? := by
    intro L h; rw [← h, List.getElem?_take, if_pos] <;> omega
  have f1 : ∀ L : List Nat, (d.drop 1).take 3 = L → d[1]? = L[0]? := by
    intro L h
    rw [← h, List.getElem?_take, if_pos]
    · rw [List.getElem?_drop]
    · omega
  have g0 : ∀ L : List Nat, d.take 11 = L → d[0]? = L[0]? := by
    intro L h; rw [← h, List.getElem?_take, if_pos] <;> omega
  have g1 : ∀ L : List Nat, d.take 11 = L → d[1]? = L[1]? := by
    intro L h; rw [← h, List.getElem?_take, if_pos] <;> omega
  refine ⟨fun h => ?_, fun h => ?_, fun h => ?_, fun h1 h2 h3 => ?_⟩
  · simp only [detect_offset, ha, h]
    rfl
  · have hmc : ¬ d.take 2 = [77, 67] := by
      intro h2
      have := (e1 _ h2).symm.trans (f1 _ h)
      simp at this
    simp only [detect_offset, ha, hb, h, if_neg hmc]
    rfl
  · have hmc : ¬ d.take 2 = [77, 67] := by
      intro h2
      have := (e0 _ h2).symm.trans (g0 _ h)
      simp at this
    have hpmv : ¬ (d.drop 1).take 3 = [80, 77, 86] := by
      intro h2
      have := (f1 _ h2).symm.trans (g1 _ h)
      simp at this
    simp only [detect_offset, ha, hb, hc, h, if_neg hmc, if_neg hpmv]
    rfl
  · simp only [detect_offset, ha, hb, hc, if_neg h1, if_neg h2, if_neg h3]

/-- Unfolding equation for the fuel base case of the chain walk. -/
theorem gatherAux_zero (mc : MemoryCard) (i : Nat) :
    gatherAux mc 0 i = .error MCError.nonTermination := rfl

/-- Unfolding equation for one step of the chain walk. -/
theorem gatherAux_succ (mc : MemoryCard) (fuel i : Nat) :
    gatherAux mc (fuel + 1) i =
      if i = 0xFF then .ok []
      else if i < 15 then
        if i = (framesGet mc i).next_block then .error MCError.corruptChain
        else
          match gatherAux mc fuel (framesGet mc i).next_block with
          | .error e => .error e
          | .ok rest => .ok (i :: rest)
      else .error MCError.indexError := rfl

/-- A `mapM` over `Except` that succeeds succeeds on every element, and every
output element is in the output list. -/
theorem mapM_ok_mem {α β : Type} (f : α → Except MCError β) :
    ∀ (l : List α) (L : List β), l.mapM f = .ok L →
      ∀ x ∈ l, ∃ y, f x = .ok y ∧ y ∈ L := by
  intro l
  induction l with
  | nil => intro L _ x hx; cases hx
  | cons a t ih =>
    intro L hok x hx
    rw [List.mapM_cons] at hok
    cases hfa : f a with
    | error e => rw [hfa] at hok; exact absurd hok (by simp [Bind.bind, Except.bind])
    | ok y =>
      rw [hfa] at hok
      cases hft : t.mapM f with
      | error e =>
        rw [hft] at hok; exact absurd hok (by simp [Bind.bind, Except.bind])
      | ok ys =>
        rw [hft] at hok
        have hL : L = y :: ys := by
          simpa [Bind.bind, Except.bind, Pure.pure, Except.pure] using hok.symm
        subst hL
        rcases hx with _ | hx
        · exact ⟨y, hfa, by simp⟩
        · obtain ⟨z, hz, hmem⟩ := ih ys hft x (by assumption)
          exact ⟨z, hz, by simp [hmem]⟩

/-- A `mapM` over `Except` whose elements all succeed computes the map of the
individual results. -/
theorem mapM_eq_ok_map {α β : Type} (f : α → Except MCError β) (g : α → β) :
    ∀ l : List α, (∀ x ∈ l, f x = .ok (g x)) → l.mapM f = .ok (l.map g) := by
  intro l
  induction l with
  | nil => intro _; rfl
  | cons a t ih =>
    intro h
    rw [List.mapM_cons, h a (by simp), ih (fun x hx => h x (by simp [hx]))]
    rfl

/-- When the chain walk at an index fails, so does decoding the save rooted
there. -/
theorem get_save_at_index_error (mc : MemoryCard) (i : Nat) (e : MCError)
    (h : gatherSave mc i = .error e) :
    get_save_at_index mc i = .error e := by
  simp [get_save_at_index, h]

/-- A `mapM` over `Except` that succeeds obtained each output element from
some input element. -/
theorem mapM_ok_mem_rev {α β : Type} (f : α → Except MCError β) :
    ∀ (l : List α) (L : List β), l.mapM f = .ok L →
      ∀ y ∈ L, ∃ x ∈ l, f x = .ok y := by
  intro l
  induction l with
  | nil =>
    intro L hok y hy
    cases hok
    cases hy
  | cons a t ih =>
    intro L hok y hy
    rw [List.mapM_cons] at hok
    cases hfa : f a with
    | error e => rw [hfa] at hok; exact absurd hok (by simp [Bind.bind, Except.bind])
    | ok z =>
      rw [hfa] at hok
      cases hft : t.mapM f with
      | error e =>
        rw [hft] at hok; exact absurd hok (by simp [Bind.bind, Except.bind])
      | ok ys =>
        rw [hft] at hok
        have hL : L = z :: ys := by
          simpa [Bind.bind, Except.bind, Pure.pure, Except.pure] using hok.symm
        subst hL
        rcases List.mem_cons.mp hy with rfl | hy
        · exact ⟨a, by simp, hfa⟩
        · obtain ⟨x, hx, hfx⟩ := ih ys hft y hy
          exact ⟨x, by simp [hx], hfx⟩

/-- Reading with a default at an in-range index is plain indexing. -/
theorem getD_eq_getElem {α : Type} (l : List α) (n : Nat) (h : n < l.length)
    (d : α) : l.getD n d = l[n] := by
  rw [List.getD_eq_getElem?_getD, List.getElem?_eq_getElem h]
  rfl

/-- Inversion of one successful step of the chain walk. -/
theorem gatherAux_succ_ok_inv (mc : MemoryCard) (n i : Nat) (c : List Nat)
    (h : gatherAux mc (n + 1) i = .ok c) :
    (i = 0xFF ∧ c = []) ∨
    (i ≠ 0xFF ∧ i < 15 ∧ i ≠ (framesGet mc i).next_block ∧
      ∃ rest, gatherAux mc n (framesGet mc i).next_block = .ok rest ∧
        c = i :: rest) := by
  rw [gatherAux_succ] at h
  by_cases h255 : i = 0xFF
  · rw [if_pos h255] at h
    injection h with h
    exact Or.inl ⟨h255, h.symm⟩
  · rw [if_neg h255] at h
    by_cases hlt : i < 15
    · rw [if_pos hlt] at h
      by_cases hself : i = (framesGet mc i).next_block
      · rw [if_pos hself] at h; cases h
      · rw [if_neg hself] at h
        cases hrec : gatherAux mc n (framesGet mc i).next_block with
        | error e => rw [hrec] at h; cases h
        | ok rest =>
          rw [hrec] at h
          injection h with h
          exact Or.inr ⟨h255, hlt, hself, rest, rfl, h.symm⟩
    · rw [if_neg hlt] at h; cases h

/-- Forward direction of one successful step of the chain walk. -/
theorem gatherAux_succ_ok_of (mc : MemoryCard) (n i : Nat) (rest : List Nat)
    (h255 : i ≠ 0xFF) (hlt : i < 15)
    (hself : i ≠ (framesGet mc i).next_block)
    (hrec : gatherAux mc n (framesGet mc i).next_block = .ok rest) :
    gatherAux mc (n + 1) i = .ok (i :: rest) := by
  rw [gatherAux_succ, if_neg h255, if_pos hlt, if_neg hself, hrec]

/-- Every index visited by a successful chain walk is a valid frame index. -/
theorem gather_mem_lt (mc : MemoryCard) :
    ∀ (fuel i : Nat) (c : List Nat), gatherAux mc fuel i = .ok c →
      ∀ j ∈ c, j < 15 := by
  intro fuel
  induction fuel with
  | zero => intro i c h; rw [gatherAux_zero] at h; cases h
  | succ n ih =>
    intro i c h j hj
    rcases gatherAux_succ_ok_inv mc n i c h with ⟨-, rfl⟩ |
      ⟨-, hlt, -, rest, hrec, rfl⟩
    · cases hj
    · rcases List.mem_cons.mp hj with rfl | hj
      · exact hlt
      · exact ih _ rest hrec j hj

/-- A successful chain walk only reads the frames at the indices it visits:
it computes the same chain on any state that agrees there. -/
theorem gather_agree (mc mc2 : MemoryCard) :
    ∀ (fuel i : Nat) (c : List Nat), gatherAux mc fuel i = .ok c →
      (∀ x ∈ c, framesGet mc2 x = framesGet mc x) →
      gatherAux mc2 fuel i = .ok c := by
  intro fuel
  induction fuel with
  | zero => intro i c h; rw [gatherAux_zero] at h; cases h
  | succ n ih =>
    intro i c h hag
    rcases gatherAux_succ_ok_inv mc n i c h with ⟨h255, rfl⟩ |
      ⟨h255, hlt, hself, rest, hrec, rfl⟩
    · rw [gatherAux_succ, if_pos h255]
    · have hfr : framesGet mc2 i = framesGet mc i := hag i (by simp)
      have hihrec := ih _ rest hrec (fun x hx => hag x (by simp [hx]))
      rw [gatherAux_succ, if_neg h255, if_pos hlt, hfr, if_neg hself, hihrec]

/-- A successful chain walk from a valid index starts with that index. -/
theorem gatherSave_head (mc : MemoryCard) (i : Nat) (c : List Nat)
    (hlt : i < 15) (h : gatherSave mc i = .ok c) : ∃ t, c = i :: t := by
  have h16 : gatherAux mc (15 + 1) i = .ok c := h
  rcases gatherAux_succ_ok_inv mc 15 i c h16 with ⟨h255, -⟩ |
    ⟨-, -, -, rest, -, rfl⟩
  · omega
  · exact ⟨rest, rfl⟩

/-- Membership in `freeIndexes`. -/
theorem mem_freeIndexes (mc : MemoryCard) (i : Nat) :
    i ∈ freeIndexes mc ↔
      i < 15 ∧ (framesGet mc i).block_state = BLOCK_AVAILABLE := by
  simp [freeIndexes, List.mem_filter, List.mem_range]

/-- Membership in `rootIndexes`. -/
theorem mem_rootIndexes (mc : MemoryCard) (i : Nat) :
    i ∈ rootIndexes mc ↔
      i < 15 ∧ (framesGet mc i).block_state = BLOCK_FIRST := by
  simp [rootIndexes, List.mem_filter, List.mem_range]

/-- `freeIndexes` has no duplicates. -/
theorem freeIndexes_nodup (mc : MemoryCard) : (freeIndexes mc).Nodup :=
  (List.nodup_range 15).filter _

/-- `rootIndexes` has no duplicates. -/
theorem rootIndexes_nodup (mc : MemoryCard) : (rootIndexes mc).Nodup :=
  (List.nodup_range 15).filter _

/-- The allocation loop writes the block state First on the chain head, Last
on the final block, and Middle in between. -/
theorem writtenFrame_block_state (s : Save) (free : List Nat) (i : Nat)
    (old : DirectoryFrame) :
    (writtenFrame s free i old).block_state =
      if i = 0 then BLOCK_FIRST
      else if i = s.blocks - 1 then BLOCK_LAST else BLOCK_MIDDLE := rfl

/-- The allocation loop links each frame to the next allocated index and ends
the chain with the 0xFF sentinel. -/
theorem writtenFrame_next_block (s : Save) (free : List Nat) (i : Nat)
    (old : DirectoryFrame) :
    (writtenFrame s free i old).next_block =
      if i = s.blocks - 1 then 0xFF else free.getD (i + 1) 0 := by
  show (if i ≠ s.blocks - 1 then free.getD (i + 1) 0 else 0xFF) = _
  by_cases hl : i = s.blocks - 1 <;> simp [hl]

/-- The allocation loop writes the filename-derived name fields the same way
at every position of the chain. -/
theorem writtenFrame_name_fields (s : Save) (free : List Nat) (i : Nat)
    (old : DirectoryFrame) :
    (writtenFrame s free i old).country_code =
        setCharField old.country_code (s.filename.take 2) 2 ∧
      (writtenFrame s free i old).product_code =
        setCharField old.product_code ((s.filename.drop 2).take 10) 10 ∧
      (writtenFrame s free i old).identifier =
        setCharField old.identifier (s.filename.drop 12) 8 :=
  ⟨rfl, rfl, rfl⟩

/-- Inversion of a successful iteration of the allocation loop. -/
theorem addIter_ok_inv (s : Save) (free : List Nat) (i : Nat)
    (mc mc1 : MemoryCard) (h : addIter s free i mc = (none, mc1)) :
    ¬ 8 < (s.filename.drop 12).length ∧ (saveChunk s i).length = 8192 ∧
    mc1 = setBlock (setFrame mc (free.getD i 0)
        (writtenFrame s free i (framesGet mc (free.getD i 0))))
      (free.getD i 0) (saveChunk s i) := by
  simp only [addIter] at h
  by_cases h1 : 8 < (s.filename.drop 12).length
  · rw [if_pos h1] at h
    injection h with h' h''
    cases h'
  · rw [if_neg h1] at h
    by_cases h2 : (saveChunk s i).length < 8192
    · rw [if_pos h2] at h
      injection h with h' h''
      cases h'
    · rw [if_neg h2] at h
      injection h with h' h''
      have hle : (saveChunk s i).length ≤ 8192 := by
        simp [saveChunk]
      exact ⟨h1, by omega, h''.symm⟩

/-- An iteration of the allocation loop succeeds when the identifier fits and
the data chunk fills the block. -/
theorem addIter_ok_of (s : Save) (free : List Nat) (i : Nat) (mc : MemoryCard)
    (h1 : ¬ 8 < (s.filename.drop 12).length)
    (h2 : ¬ (saveChunk s i).length < 8192) :
    addIter s free i mc = (none, setBlock (setFrame mc (free.getD i 0)
        (writtenFrame s free i (framesGet mc (free.getD i 0))))
      (free.getD i 0) (saveChunk s i)) := by
  simp only [addIter]
  rw [if_neg h1, if_neg h2]

/-- The allocation loop succeeds when the identifier fits and every chunk it
will copy fills its block. -/
theorem addLoop_none (s : Save) (free : List Nat)
    (hid : ¬ 8 < (s.filename.drop 12).length) :
    ∀ (is : List Nat) (mc : MemoryCard),
      (∀ i ∈ is, ¬ (saveChunk s i).length < 8192) →
      (addLoop s free is mc).1 = none := by
  intro is
  induction is with
  | nil => intro mc _; rfl
  | cons i0 rest ih =>
    intro mc hch
    simp only [addLoop, addIter_ok_of s free i0 mc hid (hch i0 (by simp))]
    exact ih _ (fun i hi => hch i (by simp [hi]))

/-- Full effect of a successful allocation loop run over distinct iteration
indices: every untouched frame and block is unchanged, every allocated frame
holds `writtenFrame` and every allocated block holds its chunk. -/
theorem addLoop_ok_inv (s : Save) (free : List Nat) (hnd : free.Nodup)
    (hlt15 : ∀ x ∈ free, x < 15) :
    ∀ (is : List Nat) (mc mcF : MemoryCard),
      is.Nodup → (∀ i ∈ is, i < free.length) →
      mc.frames.length = 15 → mc.data.length = 15 →
      addLoop s free is mc = (none, mcF) →
      mcF.frames.length = 15 ∧ mcF.data.length = 15 ∧
      (∀ j, (∀ i ∈ is, free.getD i 0 ≠ j) →
        framesGet mcF j = framesGet mc j ∧ dataGet mcF j = dataGet mc j) ∧
      (∀ i ∈ is, framesGet mcF (free.getD i 0) =
          writtenFrame s free i (framesGet mc (free.getD i 0)) ∧
        dataGet mcF (free.getD i 0) = saveChunk s i) := by
  have hinj : ∀ i j, i < free.length → j < free.length →
      free.getD i 0 = free.getD j 0 → i = j := by
    intro i j hi hj hij
    rw [getD_eq_getElem free i hi, getD_eq_getElem free j hj] at hij
    exact (hnd.getElem_inj_iff).mp hij
  intro is
  induction is with
  | nil =>
    intro mc mcF _ _ h15f h15d h
    have hF : mcF = mc := by simpa [addLoop] using h.symm
    subst hF
    exact ⟨h15f, h15d, fun j _ => ⟨rfl, rfl⟩, fun i hi => absurd hi (by simp)⟩
  | cons i0 rest ih =>
    intro mc mcF hnd2 hmem h15f h15d h
    cases haddIter : addIter s free i0 mc with
    | mk oe mc1 =>
      cases oe with
      | some e =>
        simp only [addLoop, haddIter] at h
        injection h with h' h''
        cases h'
      | none =>
        obtain ⟨-, -, hmc1⟩ := addIter_ok_inv s free i0 mc mc1 haddIter
        have hi0lt : i0 < free.length := hmem i0 (by simp)
        have ha0 : free.getD i0 0 ∈ free := by
          rw [getD_eq_getElem free i0 hi0lt]
          exact List.getElem_mem ..
        have ha0f : free.getD i0 0 < mc.frames.length := by
          rw [h15f]; exact hlt15 _ ha0
        have ha0d : free.getD i0 0 < mc.data.length := by
          rw [h15d]; exact hlt15 _ ha0
        have h15f1 : mc1.frames.length = 15 := by
          rw [hmc1, frames_length_setBlock, frames_length_setFrame, h15f]
        have h15d1 : mc1.data.length = 15 := by
          rw [hmc1, data_length_setBlock, data_length_setFrame, h15d]
        have hmc1f : ∀ j, framesGet mc1 j =
            if j = free.getD i0 0 then
              writtenFrame s free i0 (framesGet mc (free.getD i0 0))
            else framesGet mc j := by
          intro j
          rw [hmc1, framesGet_setBlock, framesGet_setFrame _ _ _ _ ha0f]
        have hmc1d : ∀ j, dataGet mc1 j =
            if j = free.getD i0 0 then saveChunk s i0 else dataGet mc j := by
          intro j
          rw [hmc1, dataGet_setBlock _ _ _ _
            (by rw [data_length_setFrame]; exact ha0d)]
          rcases eq_or_ne j (free.getD i0 0) with rfl | hne
          · rw [if_pos rfl, if_pos rfl]
          · rw [if_neg hne, if_neg hne, dataGet_setFrame]
        have hrec : addLoop s free rest mc1 = (none, mcF) := by
          simpa only [addLoop, haddIter] using h
        have hi0nr : i0 ∉ rest := (List.nodup_cons.mp hnd2).1
        obtain ⟨hF15f, hF15d, hunch, hwrit⟩ :=
          ih mc1 mcF (List.nodup_cons.mp hnd2).2
            (fun i hi => hmem i (by simp [hi])) h15f1 h15d1 hrec
        have hne_rest : ∀ i ∈ rest, free.getD i 0 ≠ free.getD i0 0 := by
          intro i hi hcontra
          have heq := hinj i i0 (hmem i (by simp [hi])) hi0lt hcontra
          exact hi0nr (heq ▸ hi)
        refine ⟨hF15f, hF15d, ?_, ?_⟩
        · intro j hj
          have h1 := hunch j (fun i hi => hj i (by simp [hi]))
          have h2f := hmc1f j
          have h2d := hmc1d j
          rw [if_neg (Ne.symm (hj i0 (by simp)))] at h2f h2d
          exact ⟨h1.1.trans h2f, h1.2.trans h2d⟩
        · intro i hi
          rcases List.mem_cons.mp hi with rfl | hi
          · have h1 := hunch (free.getD i 0) (hne_rest)
            have h2f := hmc1f (free.getD i 0)
            have h2d := hmc1d (free.getD i 0)
            rw [if_pos rfl] at h2f h2d
            exact ⟨h1.1.trans h2f, h1.2.trans h2d⟩
          · have h1 := hwrit i hi
            have h2f := hmc1f (free.getD i 0)
            have h2d := hmc1d (free.getD i 0)
            rw [if_neg (hne_rest i hi)] at h2f
            rw [h2f] at h1
            exact h1

/-- A data chunk is a full block when the data reaches past it. -/
theorem saveChunk_length (s : Save) (i : Nat)
    (h : 8192 * (i + 1) ≤ s.data.length) : (saveChunk s i).length = 8192 := by
  simp [saveChunk]
  omega

/-- Inversion of a successful `add_save`: there was enough room, and the
final state differs from the initial one exactly on the allocated frames and
blocks. -/
theorem add_save_ok_inv (mc mcF : MemoryCard) (s : Save)
    (h15f : mc.frames.length = 15) (h15d : mc.data.length = 15)
    (h : add_save mc s = (none, mcF)) :
    s.blocks ≤ (freeIndexes mc).length ∧
    mcF.frames.length = 15 ∧ mcF.data.length = 15 ∧
    (∀ j, (∀ i ∈ List.range s.blocks, (freeIndexes mc).getD i 0 ≠ j) →
      framesGet mcF j = framesGet mc j ∧ dataGet mcF j = dataGet mc j) ∧
    (∀ i ∈ List.range s.blocks,
      framesGet mcF ((freeIndexes mc).getD i 0) =
        writtenFrame s (freeIndexes mc) i
          (framesGet mc ((freeIndexes mc).getD i 0)) ∧
      dataGet mcF ((freeIndexes mc).getD i 0) = saveChunk s i) := by
  simp only [add_save] at h
  by_cases hlt : (freeIndexes mc).length < s.blocks
  · rw [if_pos hlt] at h
    injection h with h' h''
    cases h'
  · rw [if_neg hlt] at h
    have heff := addLoop_ok_inv s (freeIndexes mc) (freeIndexes_nodup mc)
      (fun x hx => ((mem_freeIndexes mc x).mp hx).1) (List.range s.blocks)
      mc mcF (List.nodup_range _)
      (fun i hi => by have := List.mem_range.mp hi; omega) h15f h15d h
    exact ⟨by omega, heff⟩

/-- `add_save` succeeds when there is room, the identifier fits its field and
the data covers all declared blocks. -/
theorem add_save_none (mc : MemoryCard) (s : Save)
    (hble : s.blocks ≤ (freeIndexes mc).length)
    (hid : ¬ 8 < (s.filename.drop 12).length)
    (hlen : 8192 * s.blocks ≤ s.data.length) :
    (add_save mc s).1 = none := by
  simp only [add_save]
  rw [if_neg (by omega)]
  apply addLoop_none s (freeIndexes mc) hid
  intro i hi
  have hib := List.mem_range.mp hi
  have := saveChunk_length s i (by omega)
  omega

/-- Splitting a filtered length by a predicate and its negation. -/
theorem length_filter_not_add {α : Type} (p : α → Bool) (l : List α) :
    (l.filter p).length + (l.filter (fun x => !(p x))).length = l.length := by
  induction l with
  | nil => rfl
  | cons a t ih =>
    cases hpa : p a <;> simp [List.filter_cons, hpa] <;> omega

/-- Filtering the frame index range by membership in a duplicate-free list of
valid indices counts that list. -/
theorem length_filter_range_mem (c : List Nat) (hnd : c.Nodup)
    (hlt : ∀ x ∈ c, x < 15) :
    ((List.range 15).filter (fun j => decide (j ∈ c))).length = c.length := by
  have hperm : ((List.range 15).filter (fun j => decide (j ∈ c))).Perm c := by
    apply (List.perm_ext_iff_of_nodup ((List.nodup_range 15).filter _) hnd).mpr
    intro x
    simp only [List.mem_filter, List.mem_range, decide_eq_true_eq]
    exact ⟨fun h => h.2, fun h => ⟨hlt x h, h⟩⟩
  exact hperm.length_eq

/-- A filtered length over a disjunction of mutually exclusive predicates is
the sum of the separate filtered lengths. -/
theorem length_filter_or {α : Type} (p q : α → Bool) (l : List α)
    (hdisj : ∀ x ∈ l, ¬(p x = true ∧ q x = true)) :
    (l.filter (fun x => p x || q x)).length =
      (l.filter p).length + (l.filter q).length := by
  induction l with
  | nil => rfl
  | cons a t ih =>
    have hd : ∀ x ∈ t, ¬(p x = true ∧ q x = true) := fun x hx =>
      hdisj x (by simp [hx])
    cases hpa : p a <;> cases hqa : q a
    · simp [List.filter_cons, hpa, hqa, ih hd]
    · simp [List.filter_cons, hpa, hqa, ih hd]; omega
    · simp [List.filter_cons, hpa, hqa, ih hd]; omega
    · exact absurd ⟨hpa, hqa⟩ (hdisj a (by simp))

/-- Reading the first `b` entries of a list via `getD` over `range b` is
`take b`. -/
theorem map_getD_range_eq_take {α : Type} (l : List α) (d : α) :
    ∀ b, b ≤ l.length → (List.range b).map (fun i => l.getD i d) = l.take b := by
  intro b
  induction b with
  | zero => intro _; rfl
  | succ n ih =>
    intro hb
    rw [List.range_succ, List.map_append, ih (by omega)]
    rw [List.map_singleton, getD_eq_getElem l n (by omega) d, List.take_succ,
      List.getElem?_eq_getElem (by omega : n < l.length)]
    rfl

/-- Concatenating the 8192-byte chunks of a list reproduces its prefix. -/
theorem flatten_chunks_take (l : List Nat) :
    ∀ b, ((List.range b).map
        (fun i => (l.drop (8192 * i)).take 8192)).flatten = l.take (8192 * b) := by
  intro b
  induction b with
  | zero => rfl
  | succ n ih =>
    rw [List.range_succ, List.map_append, List.flatten_append, ih,
      List.map_singleton, List.flatten_cons, List.flatten_nil, List.append_nil]
    rw [show 8192 * (n + 1) = 8192 * n + 8192 by ring, List.take_add]

/-- Concatenating all chunks of an exactly-covered list reproduces it. -/
theorem flatten_chunks (l : List Nat) (b : Nat) (hl : l.length = 8192 * b) :
    ((List.range b).map
      (fun i => (l.drop (8192 * i)).take 8192)).flatten = l := by
  rw [flatten_chunks_take, ← hl, List.take_length]

/-- Folding `set` over a list of valid indices writes the value there and
nothing else. -/
theorem foldl_set_getD {α : Type} (v d : α) :
    ∀ (c : List Nat) (fs : List α) (j : Nat), (∀ x ∈ c, x < fs.length) →
      (c.foldl (fun acc x => acc.set x v) fs).getD j d =
        if j ∈ c then v else fs.getD j d := by
  intro c
  induction c with
  | nil => intro fs j _; simp
  | cons x t ih =>
    intro fs j hlt
    rw [List.foldl_cons, ih (fs.set x v) j (fun y hy => by
      rw [List.length_set]; exact hlt y (by simp [hy]))]
    rcases Decidable.em (j ∈ t) with hjt | hjt
    · rw [if_pos hjt, if_pos (by simp [hjt])]
    · rw [if_neg hjt]
      rcases eq_or_ne j x with rfl | hne
      · rw [if_pos (by simp)]
        rw [List.getD_eq_getElem?_getD,
          List.getElem?_set_eq_of_lt _ (hlt j (by simp))]
        rfl
      · rw [if_neg (by simp [hne, hjt])]
        simp [List.getD_eq_getElem?_getD, List.getElem?_set', Ne.symm hne]

/-- Folding `set` preserves the length. -/
theorem foldl_set_length {α : Type} (v : α) :
    ∀ (c : List Nat) (fs : List α),
      (c.foldl (fun acc x => acc.set x v) fs).length = fs.length := by
  intro c
  induction c with
  | nil => intro fs; rfl
  | cons x t ih => intro fs; rw [List.foldl_cons, ih, List.length_set]

/-- A NUL-free `c_char` field reads back whole. -/
theorem cvalue_eq_self (l : List Nat) (h : ∀ x ∈ l, x ≠ 0) : cvalue l = l := by
  unfold cvalue
  rw [List.takeWhile_eq_self_iff.mpr]
  intro x hx
  simpa using h x hx

/-- With enough fuel, a string of ASCII bytes is valid UTF-8: every byte
takes the one-byte branch of the decoder. -/
theorem utf8ValidAux_ascii (fuel : Nat) :
    ∀ l : List Nat, l.length ≤ fuel → (∀ x ∈ l, x < 0x80) →
      utf8ValidAux fuel l = true := by
  induction fuel with
  | zero =>
    intro l hlen _
    cases l with
    | nil => rfl
    | cons a t => simp at hlen
  | succ n ih =>
    intro l hlen h
    cases l with
    | nil => rfl
    | cons a t =>
      have ha : a < 0x80 := h a (by simp)
      show utf8ValidAux (n + 1) (a :: t) = true
      simp only [utf8ValidAux]
      rw [if_pos ha]
      exact ih t (by simpa using hlen) (fun x hx => h x (by simp [hx]))

/-- A string of ASCII bytes is valid UTF-8. -/
theorem utf8Valid_ascii (l : List Nat) (h : ∀ x ∈ l, x < 0x80) :
    utf8Valid l = true :=
  utf8ValidAux_ascii l.length l le_rfl h

/-- The decode failure is real on an otherwise well-formed card: the chain at
slot 0 of `badNameCard` walks fine and the card satisfies the structural
invariant, yet evaluating the head frame's `filename` property fails on the
`0xFF 0xFF` country code and the whole enumeration aborts with
`UnicodeDecodeError`. -/
theorem badNameCard_get_saves :
    Valid badNameCard ∧
    gatherSave badNameCard 0 = .ok [0] ∧
    (framesGet badNameCard 0).filenameDecodes = false ∧
    get_saves badNameCard = .error MCError.unicodeDecodeError := by
  refine ⟨⟨by decide, by decide, [[0]], by decide, by decide, by decide⟩,
    by decide, by decide, ?_⟩
  have hroots : rootIndexes badNameCard = [0] := by decide
  have hbad : get_save_at_index badNameCard 0 =
      .error MCError.unicodeDecodeError := by decide
  unfold get_saves
  rw [hroots, List.mapM_cons, hbad]
  rfl

/-- Every frame the allocation loop writes has decodable name fields when the
save's filename is a 20-byte NUL-free ASCII string: the three `c_char` writes
store exactly the 2/10/8-byte slices, which read back unchanged and decode as
ASCII. -/
theorem writtenFrame_decodes (s : Save) (free : List Nat) (i : Nat)
    (old : DirectoryFrame) (hfn20 : s.filename.length = 20)
    (hnz : ∀ x ∈ s.filename, x ≠ 0) (hascii : ∀ x ∈ s.filename, x < 0x80) :
    (writtenFrame s free i old).filenameDecodes = true := by
  obtain ⟨hc, hp, hi2⟩ := writtenFrame_name_fields s free i old
  unfold DirectoryFrame.filenameDecodes
  rw [hc, hp, hi2]
  rw [setCharField, if_pos (by rw [List.length_take]; omega)]
  rw [setCharField, if_pos (by rw [List.length_take, List.length_drop]; omega)]
  rw [setCharField, if_pos (by rw [List.length_drop]; omega)]
  rw [cvalue_eq_self _ (fun x hx => hnz x (List.take_subset _ _ hx))]
  rw [cvalue_eq_self _ (fun x hx =>
    hnz x (List.drop_subset 2 _ (List.take_subset _ _ hx)))]
  rw [cvalue_eq_self _ (fun x hx => hnz x (List.drop_subset _ _ hx))]
  rw [utf8Valid_ascii _ (fun x hx => hascii x (List.take_subset _ _ hx))]
  rw [utf8Valid_ascii _ (fun x hx =>
    hascii x (List.drop_subset 2 _ (List.take_subset _ _ hx)))]
  rw [utf8Valid_ascii _ (fun x hx => hascii x (List.drop_subset _ _ hx))]
  rfl

/-- `chainOf` recovers the successful walk. -/
theorem chainOf_eq (mc : MemoryCard) (r : Nat) (c : List Nat)
    (h : gatherSave mc r = .ok c) : chainOf mc r = c := by
  simp [chainOf, h]

/-- Unpacking `Valid` with the chains list expressed through `chainOf`. -/
theorem valid_parts (mc : MemoryCard) (hV : Valid mc) :
    mc.frames.length = 15 ∧ mc.data.length = 15 ∧
    chainsOf mc = .ok ((rootIndexes mc).map (chainOf mc)) ∧
    ((rootIndexes mc).map (chainOf mc)).flatten.Nodup ∧
    (∀ j, j < 15 → ((framesGet mc j).block_state = BLOCK_AVAILABLE ↔
      j ∉ ((rootIndexes mc).map (chainOf mc)).flatten)) ∧
    (∀ r ∈ rootIndexes mc, gatherSave mc r = .ok (chainOf mc r)) := by
  obtain ⟨h15f, h15d, cs, hcs, hnd, hiff⟩ := hV
  have hall : ∀ r ∈ rootIndexes mc, ∃ c, gatherSave mc r = .ok c ∧ c ∈ cs :=
    mapM_ok_mem _ _ _ hcs
  have hok : ∀ r ∈ rootIndexes mc, gatherSave mc r = .ok (chainOf mc r) := by
    intro r hr
    obtain ⟨c, hc, -⟩ := hall r hr
    rw [hc, chainOf_eq mc r c hc]
  have hcs2 : chainsOf mc = .ok ((rootIndexes mc).map (chainOf mc)) :=
    mapM_eq_ok_map _ _ _ hok
  have hcseq : cs = (rootIndexes mc).map (chainOf mc) := by
    have h2 := hcs.symm.trans hcs2
    injection h2
  exact ⟨h15f, h15d, hcs2, hcseq ▸ hnd,
    fun j hj => hcseq ▸ hiff j hj, hok⟩

/-- Every block index claimed by some First-rooted chain is a valid frame
index. -/
theorem flatten_chains_lt (mc : MemoryCard)
    (hok : ∀ r ∈ rootIndexes mc, gatherSave mc r = .ok (chainOf mc r)) :
    ∀ x ∈ ((rootIndexes mc).map (chainOf mc)).flatten, x < 15 := by
  intro x hx
  rw [List.mem_flatten] at hx
  obtain ⟨c, hc, hxc⟩ := hx
  rw [List.mem_map] at hc
  obtain ⟨r, hr, rfl⟩ := hc
  exact gather_mem_lt mc 16 r _ (hok r hr) x hxc

/-- The allocation-directory invariant: on a well-formed image, the Available
frames and the frames claimed by First-rooted chains partition the 15 slots,
so the counts add to 15. -/
theorem equation_of_valid (mc : MemoryCard) (hV : Valid mc) :
    availCount mc + chainBlockSum mc = 15 := by
  obtain ⟨h15f, h15d, hcs, hnd, hiff, hok⟩ := valid_parts mc hV
  have hJlt := flatten_chains_lt mc hok
  have hsum : chainBlockSum mc =
      (((rootIndexes mc).map (chainOf mc)).flatten).length := by
    simp only [chainBlockSum, hcs, List.length_flatten]
  have hfilter : freeIndexes mc = (List.range 15).filter
      (fun j => !(decide (j ∈ ((rootIndexes mc).map (chainOf mc)).flatten))) := by
    apply List.filter_congr
    intro j hj
    have hj15 := List.mem_range.mp hj
    have hi := hiff j hj15
    by_cases hmem : j ∈ ((rootIndexes mc).map (chainOf mc)).flatten
    · have hna : ¬ (framesGet mc j).block_state = BLOCK_AVAILABLE :=
        fun ha => (hi.mp ha) hmem
      simp [hna, hmem]
    · have ha := hi.mpr hmem
      simp [ha, hmem]
  have hcount := length_filter_not_add
    (fun j => decide (j ∈ ((rootIndexes mc).map (chainOf mc)).flatten))
    (List.range 15)
  have hmemlen := length_filter_range_mem
    (((rootIndexes mc).map (chainOf mc)).flatten) hnd hJlt
  have havail : availCount mc = ((List.range 15).filter
      (fun j => !(decide (j ∈ ((rootIndexes mc).map (chainOf mc)).flatten)))).length := by
    rw [availCount, hfilter]
  rw [havail, hsum]
  simp only [List.length_range] at hcount
  omega

/-- Walking the freshly written chain: from allocation position `i` the walk
collects exactly the allocated indices from position `i` on. -/
theorem new_chain_walk (mc2 : MemoryCard) (s : Save) (free : List Nat)
    (hnd : free.Nodup) (hlt15 : ∀ x ∈ free, x < 15)
    (hble : s.blocks ≤ free.length)
    (hnext : ∀ i, i < s.blocks → (framesGet mc2 (free.getD i 0)).next_block =
      if i = s.blocks - 1 then 0xFF else free.getD (i + 1) 0) :
    ∀ d i, i + d = s.blocks → ∀ fuel, d < fuel →
      gatherAux mc2 fuel (if i < s.blocks then free.getD i 0 else 0xFF) =
        .ok (((List.range s.blocks).map (fun k => free.getD k 0)).drop i) := by
  have hinj : ∀ i j, i < free.length → j < free.length →
      free.getD i 0 = free.getD j 0 → i = j := by
    intro i j hi hj hij
    rw [getD_eq_getElem free i hi, getD_eq_getElem free j hj] at hij
    exact (hnd.getElem_inj_iff).mp hij
  have hmemf : ∀ i, i < s.blocks → free.getD i 0 ∈ free := by
    intro i hi
    rw [getD_eq_getElem free i (by omega)]
    exact List.getElem_mem ..
  intro d
  induction d with
  | zero =>
    intro i hi fuel hfuel
    have hib : ¬ i < s.blocks := by omega
    rw [if_neg hib]
    cases fuel with
    | zero => omega
    | succ f =>
      rw [gatherAux_succ, if_pos rfl, List.drop_eq_nil_of_le (by simp; omega)]
  | succ d ih =>
    intro i hi fuel hfuel
    have hib : i < s.blocks := by omega
    rw [if_pos hib]
    cases fuel with
    | zero => omega
    | succ f =>
      have hai : free.getD i 0 < 15 := hlt15 _ (hmemf i hib)
      have hnexti := hnext i hib
      have hself : ¬ free.getD i 0 = (framesGet mc2 (free.getD i 0)).next_block := by
        rw [hnexti]
        by_cases hlast : i = s.blocks - 1
        · rw [if_pos hlast]; omega
        · rw [if_neg hlast]
          intro hcontra
          have := hinj i (i + 1) (by omega) (by omega) hcontra
          omega
      have hrec : gatherAux mc2 f (framesGet mc2 (free.getD i 0)).next_block =
          .ok (((List.range s.blocks).map (fun k => free.getD k 0)).drop (i + 1)) := by
        have hih := ih (i + 1) (by omega) f (by omega)
        rw [hnexti]
        by_cases hlast : i = s.blocks - 1
        · rw [if_pos hlast]
          rw [if_neg (by omega : ¬ i + 1 < s.blocks)] at hih
          exact hih
        · rw [if_neg hlast]
          rw [if_pos (by omega : i + 1 < s.blocks)] at hih
          exact hih
      rw [gatherAux_succ, if_neg (by omega : ¬ free.getD i 0 = 0xFF),
        if_pos hai, if_neg hself, hrec]
      have hdrop : (((List.range s.blocks).map (fun k => free.getD k 0)).drop i) =
          free.getD i 0 ::
            (((List.range s.blocks).map (fun k => free.getD k 0)).drop (i + 1)) := by
        rw [List.drop_eq_getElem_cons (by simp [hib])]
        congr 1
        simp [hib]
      rw [hdrop]

/-- There are at most 15 Available frames. -/
theorem freeIndexes_length_le (mc : MemoryCard) :
    (freeIndexes mc).length ≤ 15 := by
  have h := List.length_filter_le
    (fun i => decide ((framesGet mc i).block_state = BLOCK_AVAILABLE))
    (List.range 15)
  simpa using h

/-- A successful `add_save` preserves structural well-formedness: the
allocated indices form a fresh disjoint chain rooted at the first allocated
frame, and everything else is untouched. -/
theorem add_save_valid_preserved (mc mc' : MemoryCard) (s : Save)
    (hV : Valid mc) (hadd : add_save mc s = (none, mc')) : Valid mc' := by
  obtain ⟨h15f, h15d, hcs, hnd, hiff, hok⟩ := valid_parts mc hV
  obtain ⟨hble, h15f', h15d', hunch, hwrit⟩ :=
    add_save_ok_inv mc mc' s h15f h15d hadd
  have hJlt := flatten_chains_lt mc hok
  by_cases hb0 : s.blocks = 0
  · -- no allocation: the card is pointwise unchanged
    have hfr : ∀ j, framesGet mc' j = framesGet mc j := fun j =>
      (hunch j (by simp [hb0])).1
    have hroots : rootIndexes mc' = rootIndexes mc := by
      unfold rootIndexes
      apply List.filter_congr
      intro j _
      rw [hfr j]
    have hwalk : ∀ r ∈ rootIndexes mc', gatherSave mc' r = .ok (chainOf mc r) := by
      intro r hr
      rw [hroots] at hr
      exact gather_agree mc mc' 16 r _ (hok r hr) (fun x _ => hfr x)
    have hcs' : chainsOf mc' = .ok ((rootIndexes mc').map (chainOf mc)) :=
      mapM_eq_ok_map _ _ _ hwalk
    refine ⟨h15f', h15d', (rootIndexes mc').map (chainOf mc), hcs', ?_, ?_⟩
    · rw [hroots]; exact hnd
    · intro j hj
      rw [hfr j, hroots]
      exact hiff j hj
  · -- at least one block is allocated
    have hb1 : 0 < s.blocks := by omega
    have hmemfree : ∀ i, i < s.blocks → (freeIndexes mc).getD i 0 ∈ freeIndexes mc := by
      intro i hi
      rw [getD_eq_getElem (freeIndexes mc) i (by omega)]
      exact List.getElem_mem ..
    have havail : ∀ i, i < s.blocks →
        (framesGet mc ((freeIndexes mc).getD i 0)).block_state = BLOCK_AVAILABLE :=
      fun i hi => ((mem_freeIndexes mc _).mp (hmemfree i hi)).2
    have halt15 : ∀ i, i < s.blocks → (freeIndexes mc).getD i 0 < 15 :=
      fun i hi => ((mem_freeIndexes mc _).mp (hmemfree i hi)).1
    have hJnotavail : ∀ x ∈ ((rootIndexes mc).map (chainOf mc)).flatten,
        ¬ (framesGet mc x).block_state = BLOCK_AVAILABLE := by
      intro x hx ha
      exact ((hiff x (hJlt x hx)).mp ha) hx
    have hallocJ : ∀ i, i < s.blocks →
        (freeIndexes mc).getD i 0 ∉ ((rootIndexes mc).map (chainOf mc)).flatten := by
      intro i hi hmem
      exact hJnotavail _ hmem (havail i hi)
    have hunchJ : ∀ x ∈ ((rootIndexes mc).map (chainOf mc)).flatten,
        framesGet mc' x = framesGet mc x := by
      intro x hx
      refine (hunch x ?_).1
      intro i hi hcontra
      exact hallocJ i (List.mem_range.mp hi) (hcontra ▸ hx)
    have hstate_alloc : ∀ i, i < s.blocks →
        (framesGet mc' ((freeIndexes mc).getD i 0)).block_state =
          if i = 0 then BLOCK_FIRST
          else if i = s.blocks - 1 then BLOCK_LAST else BLOCK_MIDDLE := by
      intro i hi
      rw [(hwrit i (List.mem_range.mpr hi)).1, writtenFrame_block_state]
    have hnext' : ∀ i, i < s.blocks →
        (framesGet mc' ((freeIndexes mc).getD i 0)).next_block =
          if i = s.blocks - 1 then 0xFF else (freeIndexes mc).getD (i + 1) 0 := by
      intro i hi
      rw [(hwrit i (List.mem_range.mpr hi)).1, writtenFrame_next_block]
    have hwalk0 : gatherSave mc' ((freeIndexes mc).getD 0 0) =
        .ok ((List.range s.blocks).map (fun k => (freeIndexes mc).getD k 0)) := by
      have hw := new_chain_walk mc' s (freeIndexes mc) (freeIndexes_nodup mc)
        (fun x hx => ((mem_freeIndexes mc x).mp hx).1) hble hnext'
        s.blocks 0 (by omega) 16
        (by have := freeIndexes_length_le mc; omega)
      rw [if_pos hb1, List.drop_zero] at hw
      exact hw
    have hwalkold : ∀ r ∈ rootIndexes mc,
        gatherSave mc' r = .ok (chainOf mc r) := by
      intro r hr
      refine gather_agree mc mc' 16 r _ (hok r hr) ?_
      intro x hx
      refine hunchJ x ?_
      rw [List.mem_flatten]
      exact ⟨chainOf mc r, List.mem_map_of_mem _ hr, hx⟩
    have hroots_not_alloc : ∀ r ∈ rootIndexes mc, ∀ i, i < s.blocks →
        (freeIndexes mc).getD i 0 ≠ r := by
      intro r hr i hi hcontra
      have h1 := ((mem_rootIndexes mc r).mp hr).2
      have h2 := havail i hi
      rw [hcontra, h1] at h2
      simp [BLOCK_FIRST, BLOCK_AVAILABLE] at h2
    have hrootsunch : ∀ r ∈ rootIndexes mc, framesGet mc' r = framesGet mc r := by
      intro r hr
      exact (hunch r (fun i hi => hroots_not_alloc r hr i (List.mem_range.mp hi))).1
    have ha0nroots : (freeIndexes mc).getD 0 0 ∉ rootIndexes mc := by
      intro hmem
      have h1 := ((mem_rootIndexes mc _).mp hmem).2
      have h2 := havail 0 hb1
      rw [h1] at h2
      simp [BLOCK_FIRST, BLOCK_AVAILABLE] at h2
    have hmemiff : ∀ x, x ∈ rootIndexes mc' ↔
        x = (freeIndexes mc).getD 0 0 ∨ x ∈ rootIndexes mc := by
      intro x
      constructor
      · intro hx
        obtain ⟨hx15, hxf⟩ := (mem_rootIndexes mc' x).mp hx
        by_cases hex : ∃ i, i < s.blocks ∧ (freeIndexes mc).getD i 0 = x
        · obtain ⟨i, hi, rfl⟩ := hex
          left
          have hst := hstate_alloc i hi
          rw [hxf] at hst
          by_cases hi0 : i = 0
          · rw [hi0]
          · rw [if_neg hi0] at hst
            by_cases hil : i = s.blocks - 1 <;>
              simp [hil, BLOCK_FIRST, BLOCK_LAST, BLOCK_MIDDLE] at hst
        · right
          have hux : framesGet mc' x = framesGet mc x := by
            refine (hunch x ?_).1
            intro i hi hcontra
            exact hex ⟨i, List.mem_range.mp hi, hcontra⟩
          rw [hux] at hxf
          exact (mem_rootIndexes mc x).mpr ⟨hx15, hxf⟩
      · intro hx
        rcases hx with rfl | hx
        · refine (mem_rootIndexes mc' _).mpr ⟨halt15 0 hb1, ?_⟩
          rw [hstate_alloc 0 hb1, if_pos rfl]
        · refine (mem_rootIndexes mc' x).mpr
            ⟨((mem_rootIndexes mc x).mp hx).1, ?_⟩
          rw [hrootsunch x hx]
          exact ((mem_rootIndexes mc x).mp hx).2
    have hpermroots : (rootIndexes mc').Perm
        ((freeIndexes mc).getD 0 0 :: rootIndexes mc) := by
      apply (List.perm_ext_iff_of_nodup (rootIndexes_nodup mc') ?_).mpr
      · intro x
        rw [hmemiff x, List.mem_cons]
      · exact List.nodup_cons.mpr ⟨ha0nroots, rootIndexes_nodup mc⟩
    have hwalk' : ∀ r ∈ rootIndexes mc',
        gatherSave mc' r = .ok (chainOf mc' r) := by
      intro r hr
      rcases (hmemiff r).mp hr with rfl | hr2
      · rw [hwalk0, chainOf_eq mc' _ _ hwalk0]
      · rw [hwalkold r hr2, chainOf_eq mc' r _ (hwalkold r hr2)]
    have hcs' : chainsOf mc' = .ok ((rootIndexes mc').map (chainOf mc')) :=
      mapM_eq_ok_map _ _ _ hwalk'
    have hchain0 : chainOf mc' ((freeIndexes mc).getD 0 0) =
        (List.range s.blocks).map (fun k => (freeIndexes mc).getD k 0) :=
      chainOf_eq mc' _ _ hwalk0
    have hchainold : ∀ r ∈ rootIndexes mc, chainOf mc' r = chainOf mc r :=
      fun r hr => chainOf_eq mc' r _ (hwalkold r hr)
    have hallocmem : ∀ x, x ∈ (List.range s.blocks).map
        (fun k => (freeIndexes mc).getD k 0) ↔
        ∃ i, i < s.blocks ∧ (freeIndexes mc).getD i 0 = x := by
      intro x
      simp [List.mem_map, List.mem_range]
    have hpermJ : (((rootIndexes mc').map (chainOf mc')).flatten).Perm
        (((List.range s.blocks).map (fun k => (freeIndexes mc).getD k 0)) ++
          ((rootIndexes mc).map (chainOf mc)).flatten) := by
      have h1 : ((rootIndexes mc').map (chainOf mc')).Perm
          ((((freeIndexes mc).getD 0 0) :: rootIndexes mc).map (chainOf mc')) :=
        hpermroots.map _
      have h2 := h1.flatten
      have h3 : (((freeIndexes mc).getD 0 0 :: rootIndexes mc).map
          (chainOf mc')).flatten =
          ((List.range s.blocks).map (fun k => (freeIndexes mc).getD k 0)) ++
            ((rootIndexes mc).map (chainOf mc)).flatten := by
        rw [List.map_cons, List.flatten_cons, hchain0,
          List.map_congr_left hchainold]
      rw [h3] at h2
      exact h2
    have halloc_take : (List.range s.blocks).map
        (fun k => (freeIndexes mc).getD k 0) = (freeIndexes mc).take s.blocks :=
      map_getD_range_eq_take (freeIndexes mc) 0 s.blocks hble
    have hnodup' : (((rootIndexes mc').map (chainOf mc')).flatten).Nodup := by
      rw [hpermJ.nodup_iff]
      rw [List.nodup_append]
      refine ⟨?_, hnd, ?_⟩
      · rw [halloc_take]
        exact (List.take_sublist _ _).nodup (freeIndexes_nodup mc)
      · intro x hx
        obtain ⟨i, hi, rfl⟩ := (hallocmem x).mp hx
        exact hallocJ i hi
    refine ⟨h15f', h15d', (rootIndexes mc').map (chainOf mc'), hcs', hnodup', ?_⟩
    intro j hj
    rw [hpermJ.mem_iff, List.mem_append]
    by_cases hex : ∃ i, i < s.blocks ∧ (freeIndexes mc).getD i 0 = j
    · obtain ⟨i, hi, rfl⟩ := hex
      constructor
      · intro ha
        rw [hstate_alloc i hi] at ha
        by_cases hi0 : i = 0
        · rw [if_pos hi0] at ha
          simp [BLOCK_FIRST, BLOCK_AVAILABLE] at ha
        · rw [if_neg hi0] at ha
          by_cases hil : i = s.blocks - 1 <;>
            simp [hil, BLOCK_FIRST, BLOCK_LAST, BLOCK_MIDDLE,
              BLOCK_AVAILABLE] at ha
      · intro hnotin
        exact absurd (Or.inl ((hallocmem _).mpr ⟨i, hi, rfl⟩)) hnotin
    · have hux : framesGet mc' j = framesGet mc j := by
        refine (hunch j ?_).1
        intro i hi hcontra
        exact hex ⟨i, List.mem_range.mp hi, hcontra⟩
      rw [hux]
      have hiffj := hiff j hj
      constructor
      · intro ha
        intro hor
        rcases hor with hmem | hmem
        · exact hex ((hallocmem j).mp hmem)
        · exact (hiffj.mp ha) hmem
      · intro hnotin
        exact hiffj.mpr (fun hmem => hnotin (Or.inr hmem))

/-- The reset frame written by `delete_save_at_index` is Available. -/
theorem availFrame_block_state : availFrame.block_state = BLOCK_AVAILABLE := rfl

/-- A successful `delete_save_at_index` at a First-rooted index preserves
structural well-formedness: the deleted chain's frames return to Available
and every other chain is untouched. -/
theorem delete_valid_preserved (mc mc' : MemoryCard) (i : Nat)
    (hV : Valid mc) (hroot : i ∈ rootIndexes mc)
    (hdel : delete_save_at_index mc i = (none, mc')) : Valid mc' := by
  obtain ⟨h15f, h15d, hcs, hnd, hiff, hok⟩ := valid_parts mc hV
  have hgather : gatherSave mc i = .ok (chainOf mc i) := hok i hroot
  have hi15 : i < 15 := ((mem_rootIndexes mc i).mp hroot).1
  have hmc' : mc' = { mc with
      frames := (chainOf mc i).foldl (fun fs j => fs.set j availFrame) mc.frames,
      data := (chainOf mc i).foldl
        (fun ds j => ds.set j (List.replicate 8192 0)) mc.data } := by
    simp only [delete_save_at_index, hgather] at hdel
    injection hdel with h' h''
    exact h''.symm
  have hchainlt : ∀ x ∈ chainOf mc i, x < 15 :=
    gather_mem_lt mc 16 i _ hgather
  have hfr' : ∀ j, framesGet mc' j =
      if j ∈ chainOf mc i then availFrame else framesGet mc j := by
    intro j
    rw [hmc']
    exact foldl_set_getD availFrame blankFrame (chainOf mc i) mc.frames j
      (fun x hx => h15f ▸ hchainlt x hx)
  have h15f' : mc'.frames.length = 15 := by
    rw [hmc']
    show ((chainOf mc i).foldl _ mc.frames).length = 15
    rw [foldl_set_length, h15f]
  have h15d' : mc'.data.length = 15 := by
    rw [hmc']
    show ((chainOf mc i).foldl _ mc.data).length = 15
    rw [foldl_set_length, h15d]
  have hmemchain : i ∈ chainOf mc i := by
    obtain ⟨t, ht⟩ := gatherSave_head mc i _ hi15 hgather
    rw [ht]
    simp
  have hpairs : List.Pairwise
      (fun a b => List.Disjoint (chainOf mc a) (chainOf mc b))
      (rootIndexes mc) := by
    have h2 := (List.nodup_flatten.mp hnd).2
    exact (List.pairwise_map.mp h2)
  have hsymm : Symmetric
      (fun a b : Nat => List.Disjoint (chainOf mc a) (chainOf mc b)) :=
    fun a b h x hxa hxb => h hxb hxa
  have hdisj := hpairs.forall hsymm
  have hnodupchains : ∀ c ∈ (rootIndexes mc).map (chainOf mc), c.Nodup :=
    (List.nodup_flatten.mp hnd).1
  have hrootchain : ∀ r ∈ rootIndexes mc, r ≠ i → r ∉ chainOf mc i := by
    intro r hr hne hmem
    have hrhead : r ∈ chainOf mc r := by
      obtain ⟨t, ht⟩ := gatherSave_head mc r _
        ((mem_rootIndexes mc r).mp hr).1 (hok r hr)
      rw [ht]; simp
    exact hdisj hr hroot hne hrhead hmem
  have hmemiff : ∀ x, x ∈ rootIndexes mc' ↔
      x ∈ rootIndexes mc ∧ x ≠ i := by
    intro x
    constructor
    · intro hx
      obtain ⟨hx15, hxf⟩ := (mem_rootIndexes mc' x).mp hx
      rw [hfr' x] at hxf
      by_cases hxc : x ∈ chainOf mc i
      · rw [if_pos hxc] at hxf
        simp [availFrame_block_state, BLOCK_AVAILABLE, BLOCK_FIRST] at hxf
      · rw [if_neg hxc] at hxf
        refine ⟨(mem_rootIndexes mc x).mpr ⟨hx15, hxf⟩, ?_⟩
        intro hcontra
        exact hxc (hcontra ▸ hmemchain)
    · rintro ⟨hx, hne⟩
      refine (mem_rootIndexes mc' x).mpr ⟨((mem_rootIndexes mc x).mp hx).1, ?_⟩
      rw [hfr' x, if_neg (hrootchain x hx hne)]
      exact ((mem_rootIndexes mc x).mp hx).2
  have hpermroots : (rootIndexes mc').Perm ((rootIndexes mc).erase i) := by
    apply (List.perm_ext_iff_of_nodup (rootIndexes_nodup mc')
      ((rootIndexes_nodup mc).erase i)).mpr
    intro x
    rw [hmemiff x, (rootIndexes_nodup mc).mem_erase_iff]
    tauto
  have hwalk' : ∀ r ∈ rootIndexes mc',
      gatherSave mc' r = .ok (chainOf mc r) := by
    intro r hr
    obtain ⟨hr2, hne⟩ := (hmemiff r).mp hr
    refine gather_agree mc mc' 16 r _ (hok r hr2) ?_
    intro x hx
    rw [hfr' x, if_neg (fun hmem => hdisj hr2 hroot hne hx hmem)]
  have hwalk'2 : ∀ r ∈ rootIndexes mc',
      gatherSave mc' r = .ok (chainOf mc' r) := by
    intro r hr
    rw [hwalk' r hr, chainOf_eq mc' r _ (hwalk' r hr)]
  have hcs' : chainsOf mc' = .ok ((rootIndexes mc').map (chainOf mc')) :=
    mapM_eq_ok_map _ _ _ hwalk'2
  have hmapeq : (rootIndexes mc').map (chainOf mc') =
      (rootIndexes mc').map (chainOf mc) :=
    List.map_congr_left (fun r hr => chainOf_eq mc' r _ (hwalk' r hr))
  have hpermJ : (((rootIndexes mc').map (chainOf mc')).flatten).Perm
      ((((rootIndexes mc).erase i).map (chainOf mc)).flatten) := by
    rw [hmapeq]
    exact (hpermroots.map _).flatten
  have hsubmap : List.Sublist (((rootIndexes mc).erase i).map (chainOf mc))
      ((rootIndexes mc).map (chainOf mc)) :=
    (List.erase_sublist ..).map _
  have hnodup' : (((rootIndexes mc').map (chainOf mc')).flatten).Nodup := by
    rw [hpermJ.nodup_iff]
    apply List.nodup_flatten.mpr
    refine ⟨fun c hc => hnodupchains c (hsubmap.mem hc), ?_⟩
    exact (List.nodup_flatten.mp hnd).2.sublist hsubmap
  have hJ'memiff : ∀ j, j ∉ chainOf mc i →
      (j ∈ (((rootIndexes mc).erase i).map (chainOf mc)).flatten ↔
        j ∈ ((rootIndexes mc).map (chainOf mc)).flatten) := by
    intro j hjc
    constructor
    · intro hj
      rw [List.mem_flatten] at hj ⊢
      obtain ⟨c, hc, hjc2⟩ := hj
      exact ⟨c, hsubmap.mem hc, hjc2⟩
    · intro hj
      rw [List.mem_flatten] at hj ⊢
      obtain ⟨c, hc, hjc2⟩ := hj
      rw [List.mem_map] at hc
      obtain ⟨r, hr, rfl⟩ := hc
      have hne : r ≠ i := by
        rintro rfl
        exact hjc hjc2
      refine ⟨chainOf mc r, ?_, hjc2⟩
      exact List.mem_map_of_mem _
        (((rootIndexes_nodup mc).mem_erase_iff).mpr ⟨hne, hr⟩)
  refine ⟨h15f', h15d', (rootIndexes mc').map (chainOf mc'), hcs', hnodup', ?_⟩
  intro j hj
  rw [hfr' j, hpermJ.mem_iff]
  by_cases hjc : j ∈ chainOf mc i
  · rw [if_pos hjc]
    constructor
    · intro _
      intro hmem
      rw [List.mem_flatten] at hmem
      obtain ⟨c, hc, hjc2⟩ := hmem
      rw [List.mem_map] at hc
      obtain ⟨r, hr, rfl⟩ := hc
      obtain ⟨hne, hr2⟩ := ((rootIndexes_nodup mc).mem_erase_iff).mp hr
      exact hdisj hr2 hroot hne hjc2 hjc
    · intro _
      exact availFrame_block_state
  · rw [if_neg hjc, hJ'memiff j hjc]
    exact hiff j hj

/-- Specification form of `Save.is_valid`. -/
theorem is_valid_spec (s : Save) : s.is_valid = true ↔
    (s.metadata_magic = [83, 67] ∧ s.data.length % 8192 = 0 ∧
      s.data.length / 8192 = s.blocks) := by
  unfold Save.is_valid
  split_ifs with h1 h2 h3 <;> simp_all

/-- The concrete one-block save carries 8192 bytes. -/
theorem exSave_data_length : exSave.data.length = 8192 := by
  simp only [exSave, List.length_cons, List.length_replicate]

/-- The concrete one-block save is valid. -/
theorem exSave_is_valid : exSave.is_valid = true := by
  refine (is_valid_spec exSave).mpr ⟨by decide, ?_, ?_⟩ <;>
    rw [exSave_data_length] <;> decide

/-- Inversion of a successful save decode: the chain walk succeeded, started
at a head frame whose name fields decode, and the decoded save reads that
frame's filename and the chain's concatenated data blocks. -/
theorem get_save_at_index_ok_inv (mc : MemoryCard) (r : Nat) (t : Save)
    (h : get_save_at_index mc r = .ok t) :
    ∃ hd tl, gatherSave mc r = .ok (hd :: tl) ∧
      (framesGet mc hd).filenameDecodes = true ∧
      t = { filename := (framesGet mc hd).filename,
            data := ((hd :: tl).map (dataGet mc)).flatten } := by
  cases hg : gatherSave mc r with
  | error e =>
    rw [show get_save_at_index mc r = .error e by simp [get_save_at_index, hg]]
      at h
    cases h
  | ok c =>
    cases c with
    | nil =>
      rw [show get_save_at_index mc r = .error .indexError by
        simp [get_save_at_index, hg]] at h
      cases h
    | cons hd tl =>
      by_cases hdec : (framesGet mc hd).filenameDecodes = true
      · have h2 : get_save_at_index mc r =
            .ok { filename := (framesGet mc hd).filename,
                  data := ((hd :: tl).map (dataGet mc)).flatten } := by
          simp [get_save_at_index, hg, hdec]
        rw [h2] at h
        injection h with h
        exact ⟨hd, tl, rfl, hdec, h.symm⟩
      · rw [show get_save_at_index mc r = .error .unicodeDecodeError by
          simp [get_save_at_index, hg, hdec]] at h
        cases h

/-- Forward direction of a save decode over a successful chain walk whose
head frame's name fields decode. -/
theorem get_save_at_index_ok_of (mc : MemoryCard) (r hd : Nat) (tl : List Nat)
    (h : gatherSave mc r = .ok (hd :: tl))
    (hdec : (framesGet mc hd).filenameDecodes = true) :
    get_save_at_index mc r =
      .ok { filename := (framesGet mc hd).filename,
            data := ((hd :: tl).map (dataGet mc)).flatten } := by
  simp [get_save_at_index, h, hdec]

/-- After a successful allocation of at least one block, walking from the
first allocated index collects exactly the allocated indices. -/
theorem add_save_new_chain (mc mc' : MemoryCard) (s : Save)
    (h15f : mc.frames.length = 15) (h15d : mc.data.length = 15)
    (hb1 : 0 < s.blocks)
    (hadd : add_save mc s = (none, mc')) :
    gatherSave mc' ((freeIndexes mc).getD 0 0) =
      .ok ((List.range s.blocks).map (fun k => (freeIndexes mc).getD k 0)) := by
  obtain ⟨hble, -, -, -, hwrit⟩ := add_save_ok_inv mc mc' s h15f h15d hadd
  have hnext' : ∀ i, i < s.blocks →
      (framesGet mc' ((freeIndexes mc).getD i 0)).next_block =
        if i = s.blocks - 1 then 0xFF else (freeIndexes mc).getD (i + 1) 0 := by
    intro i hi
    rw [(hwrit i (List.mem_range.mpr hi)).1, writtenFrame_next_block]
  have hw := new_chain_walk mc' s (freeIndexes mc) (freeIndexes_nodup mc)
    (fun x hx => ((mem_freeIndexes mc x).mp hx).1) hble hnext'
    s.blocks 0 (by omega) 16
    (by have := freeIndexes_length_le mc; omega)
  rw [if_pos hb1, List.drop_zero] at hw
  exact hw

/-- C2 (amended): on every well-formed image the number of Available frames
plus the total length of the First-rooted chains is 15, and this equation is
preserved by every `add_save` that succeeds and by every
`delete_save_at_index` that succeeds at a First-rooted index.  (Deleting at a
mid-chain index also succeeds in the source but breaks the invariant — see
the counterexample.) -/
theorem claim2_allocation_invariant (mc : MemoryCard) (hV : Valid mc) :
    availCount mc + chainBlockSum mc = 15 ∧
    (∀ (s : Save) (mc' : MemoryCard), add_save mc s = (none, mc') →
      availCount mc' + chainBlockSum mc' = 15) ∧
    (∀ (i : Nat) (mc' : MemoryCard), i ∈ rootIndexes mc →
      delete_save_at_index mc i = (none, mc') →
      availCount mc' + chainBlockSum mc' = 15) :=
  ⟨equation_of_valid mc hV,
   fun s mc' h => equation_of_valid mc' (add_save_valid_preserved mc mc' s hV h),
   fun i mc' hi h =>
     equation_of_valid mc' (delete_valid_preserved mc mc' i hV hi h)⟩

/-- Witness for C2: the two-block card is well-formed (13 + 2 = 15), and both
a successful one-block `add_save` and the deletion of the save rooted at
frame 1 preserve the equation. -/
theorem claim2_witness :
    Valid twoBlockCard ∧
    availCount twoBlockCard + chainBlockSum twoBlockCard = 15 ∧
    availCount (add_save twoBlockCard exSave).2 +
      chainBlockSum (add_save twoBlockCard exSave).2 = 15 ∧
    availCount (delete_save_at_index twoBlockCard 1).2 +
      chainBlockSum (delete_save_at_index twoBlockCard 1).2 = 15 := by
  have hV : Valid twoBlockCard :=
    ⟨by decide, by decide, [[1, 2]], by decide, by decide, by decide⟩
  have hadd1 : (add_save twoBlockCard exSave).1 = none := by
    apply add_save_none
    · decide
    · decide
    · rw [exSave_data_length]; decide
  have hadd : add_save twoBlockCard exSave =
      (none, (add_save twoBlockCard exSave).2) := by
    rw [← hadd1]
  have hdel1 : (delete_save_at_index twoBlockCard 1).1 = none := by decide
  have hdel : delete_save_at_index twoBlockCard 1 =
      (none, (delete_save_at_index twoBlockCard 1).2) := by
    rw [← hdel1]
  refine ⟨hV, (claim2_allocation_invariant twoBlockCard hV).1, ?_, ?_⟩
  · exact (claim2_allocation_invariant twoBlockCard hV).2.1 exSave _ hadd
  · exact (claim2_allocation_invariant twoBlockCard hV).2.2 1 _ (by decide) hdel

/-- Counterexample to C2 as stated: `delete_save_at_index` at index 2 — the
Last frame of the two-block chain, not a save's first block — succeeds on the
well-formed two-block card, yet afterwards the Available count plus the chain
sum is 14, not 15 (the surviving First frame at slot 1 now heads a chain
whose walk runs into reset frames and dies on the frame-0 self-loop, so no
chain total can be attributed to it; the card is corrupted). -/
theorem claim2_counterexample :
    Valid twoBlockCard ∧
    (framesGet twoBlockCard 2).block_state = BLOCK_LAST ∧
    (delete_save_at_index twoBlockCard 2).1 = none ∧
    availCount (delete_save_at_index twoBlockCard 2).2 +
      chainBlockSum (delete_save_at_index twoBlockCard 2).2 = 14 := by
  refine ⟨⟨by decide, by decide, [[1, 2]], by decide, by decide, by decide⟩,
    by decide, by decide, by decide⟩

/-- The reset frame's checksum byte equals the XOR of its other 127 bytes. -/
theorem availFrame_xor :
    availFrame.xor = xorBytes (frameBytes127 availFrame) := by decide

/-- C4 (amended): deleting the save rooted at First-frame index `i` (its
chain walking successfully, so the save is reachable via `get_saves`)
succeeds; afterwards every frame of its chain is Available with a checksum
byte equal to the XOR of its other 127 bytes, every data block of its chain
is all-zero, and — provided no other First-rooted frame on the card carries
the same filename — no save returned by a successful `get_saves` carries the
deleted save's filename. -/
theorem claim4_delete_then_get_saves (mc : MemoryCard) (i : Nat) (c : List Nat)
    (h15f : mc.frames.length = 15) (h15d : mc.data.length = 15)
    (hi15 : i < 15)
    (hfirst : (framesGet mc i).block_state = BLOCK_FIRST)
    (hgather : gatherSave mc i = .ok c)
    (huniq : ∀ r ∈ rootIndexes mc, r ≠ i →
      (framesGet mc r).filename ≠ (framesGet mc i).filename) :
    delete_save_at_index mc i = (none, (delete_save_at_index mc i).2) ∧
    (∀ j ∈ c,
      (framesGet (delete_save_at_index mc i).2 j).block_state =
        BLOCK_AVAILABLE ∧
      (framesGet (delete_save_at_index mc i).2 j).xor =
        xorBytes (frameBytes127 (framesGet (delete_save_at_index mc i).2 j))) ∧
    (∀ j ∈ c,
      dataGet (delete_save_at_index mc i).2 j = List.replicate 8192 0) ∧
    (∀ L, get_saves (delete_save_at_index mc i).2 = .ok L →
      ∀ t ∈ L, t.filename ≠ (framesGet mc i).filename) := by
  have hdel : delete_save_at_index mc i = (none, { mc with
      frames := c.foldl (fun fs j => fs.set j availFrame) mc.frames,
      data := c.foldl (fun ds j => ds.set j (List.replicate 8192 0)) mc.data }) := by
    simp only [delete_save_at_index, hgather]
  have hchainlt : ∀ x ∈ c, x < 15 := gather_mem_lt mc 16 i _ hgather
  have hfr' : ∀ j, framesGet (delete_save_at_index mc i).2 j =
      if j ∈ c then availFrame else framesGet mc j := by
    intro j
    rw [hdel]
    exact foldl_set_getD availFrame blankFrame c mc.frames j
      (fun x hx => h15f ▸ hchainlt x hx)
  have hdata' : ∀ j, dataGet (delete_save_at_index mc i).2 j =
      if j ∈ c then List.replicate 8192 0 else dataGet mc j := by
    intro j
    rw [hdel]
    exact foldl_set_getD (List.replicate 8192 0) [] c mc.data j
      (fun x hx => h15d ▸ hchainlt x hx)
  have hmemc : i ∈ c := by
    obtain ⟨t, ht⟩ := gatherSave_head mc i c hi15 hgather
    rw [ht]
    simp
  refine ⟨by rw [hdel], ?_, ?_, ?_⟩
  · intro j hj
    rw [hfr' j, if_pos hj]
    exact ⟨rfl, availFrame_xor⟩
  · intro j hj
    rw [hdata' j, if_pos hj]
  · intro L hok t ht
    obtain ⟨r, hr, hdec⟩ := mapM_ok_mem_rev _ _ _ hok t ht
    obtain ⟨hd, tl, hg', -, ht2⟩ := get_save_at_index_ok_inv _ r t hdec
    obtain ⟨hr15, hrf⟩ := (mem_rootIndexes _ r).mp hr
    have hrnc : r ∉ c := by
      intro hmem
      rw [hfr' r, if_pos hmem] at hrf
      exact absurd hrf (by decide)
    have hrne : r ≠ i := fun hcontra => hrnc (hcontra ▸ hmemc)
    have hstate : (framesGet mc r).block_state = BLOCK_FIRST := by
      rw [hfr' r, if_neg hrnc] at hrf
      exact hrf
    have hrroot : r ∈ rootIndexes mc :=
      (mem_rootIndexes mc r).mpr ⟨hr15, hstate⟩
    obtain ⟨tl2, htl2⟩ := gatherSave_head _ r _ hr15 hg'
    have hhd : hd = r := by
      injection htl2 with h1 h2
    rw [ht2]
    show (framesGet (delete_save_at_index mc i).2 hd).filename ≠
      (framesGet mc i).filename
    rw [hhd, hfr' r, if_neg hrnc]
    exact huniq r hrroot hrne

/-- Witness for C4 (amended): deleting the two-block save rooted at frame 1
of the two-block card resets frames 1 and 2 and zeroes blocks 1 and 2, and
its filename disappears from `get_saves`. -/
theorem claim4_witness :
    (framesGet twoBlockCard 1).block_state = BLOCK_FIRST ∧
    gatherSave twoBlockCard 1 = .ok [1, 2] ∧
    (delete_save_at_index twoBlockCard 1 =
        (none, (delete_save_at_index twoBlockCard 1).2) ∧
      (∀ j ∈ [1, 2],
        (framesGet (delete_save_at_index twoBlockCard 1).2 j).block_state =
          BLOCK_AVAILABLE ∧
        (framesGet (delete_save_at_index twoBlockCard 1).2 j).xor =
          xorBytes
            (frameBytes127 (framesGet (delete_save_at_index twoBlockCard 1).2 j))) ∧
      (∀ j ∈ [1, 2],
        dataGet (delete_save_at_index twoBlockCard 1).2 j =
          List.replicate 8192 0) ∧
      (∀ L, get_saves (delete_save_at_index twoBlockCard 1).2 = .ok L →
        ∀ t ∈ L, t.filename ≠ (framesGet twoBlockCard 1).filename)) :=
  ⟨by decide, by decide,
   claim4_delete_then_get_saves twoBlockCard 1 [1, 2] (by decide) (by decide)
     (by decide) (by decide) (by decide) (by decide)⟩

/-- Counterexample to C4 as stated: on a card holding two byte-for-byte
identical saves (slots 0 and 1 of `twinSaveCard`), the save at slot 1 is
reachable via `get_saves`; deleting it succeeds, yet a save equal to it —
same filename, same data — still appears in `get_saves` afterwards (the twin
in slot 0), so "the deleted save no longer appears in `get_saves`" fails. -/
theorem claim4_counterexample :
    ∃ s : Save,
      get_save_at_index twinSaveCard 1 = .ok s ∧
      (∃ L, get_saves twinSaveCard = .ok L ∧ s ∈ L) ∧
      (delete_save_at_index twinSaveCard 1).1 = none ∧
      (∃ L2, get_saves (delete_save_at_index twinSaveCard 1).2 = .ok L2 ∧
        s ∈ L2) := by
  have hg0 : gatherSave twinSaveCard 0 = .ok [0] := by decide
  have hg1 : gatherSave twinSaveCard 1 = .ok [1] := by decide
  have hd0 := get_save_at_index_ok_of twinSaveCard 0 0 [] hg0 (by decide)
  have hd1 := get_save_at_index_ok_of twinSaveCard 1 1 [] hg1 (by decide)
  have hroots : rootIndexes twinSaveCard = [0, 1] := by decide
  have hsaves : get_saves twinSaveCard = .ok
      [{ filename := (framesGet twinSaveCard 0).filename,
         data := ([0].map (dataGet twinSaveCard)).flatten },
       { filename := (framesGet twinSaveCard 1).filename,
         data := ([1].map (dataGet twinSaveCard)).flatten }] := by
    unfold get_saves
    rw [hroots, List.mapM_cons, hd0, List.mapM_cons, hd1]
    rfl
  have hdel1 : (delete_save_at_index twinSaveCard 1).1 = none := by decide
  have hg0d : gatherSave (delete_save_at_index twinSaveCard 1).2 0 =
      .ok [0] := by decide
  have hd0d := get_save_at_index_ok_of
    (delete_save_at_index twinSaveCard 1).2 0 0 [] hg0d (by decide)
  have hrootsd : rootIndexes (delete_save_at_index twinSaveCard 1).2 =
      [0] := by decide
  have hsavesd : get_saves (delete_save_at_index twinSaveCard 1).2 = .ok
      [{ filename := (framesGet (delete_save_at_index twinSaveCard 1).2 0).filename,
         data := ([0].map (dataGet (delete_save_at_index twinSaveCard 1).2)).flatten }] := by
    unfold get_saves
    rw [hrootsd, List.mapM_cons, hd0d]
    rfl
  have hfn : (framesGet twinSaveCard 1).filename =
      (framesGet (delete_save_at_index twinSaveCard 1).2 0).filename := by
    decide
  have e1 : dataGet twinSaveCard 1 = List.replicate 8192 0 := rfl
  have e2 : dataGet (delete_save_at_index twinSaveCard 1).2 0 =
      List.replicate 8192 0 := rfl
  have hdata : ([1].map (dataGet twinSaveCard)).flatten =
      ([0].map (dataGet (delete_save_at_index twinSaveCard 1).2)).flatten := by
    simp only [List.map_cons, List.map_nil, List.flatten_cons,
      List.flatten_nil, e1, e2]
  have heq : Save.mk (framesGet twinSaveCard 1).filename
        (([1].map (dataGet twinSaveCard)).flatten) =
      Save.mk (framesGet (delete_save_at_index twinSaveCard 1).2 0).filename
        (([0].map (dataGet (delete_save_at_index twinSaveCard 1).2)).flatten) := by
    rw [hfn, hdata]
  refine ⟨_, hd1, ⟨_, hsaves, by simp⟩, hdel1, ⟨_, hsavesd, ?_⟩⟩
  rw [heq]
  simp

/-- C1 (amended): on a well-formed image each of whose First-rooted frames
carries UTF-8-decodable name fields, adding a valid save with a NUL-free
20-byte ASCII filename and enough Available frames succeeds, and the
resulting `get_saves` list contains a save whose filename, block count and
payload data equal the inputs.  (Without the decodability proviso the
enumeration can abort with `UnicodeDecodeError` on a pre-existing frame's
name; without ASCII-ness the positional 2/10/8 split of the source — which
slices the decoded string by characters — and the byte-level split here
would disagree, and the Python 2 ctypes write of a non-ASCII name raises.) -/
theorem claim1_add_get_saves_roundtrip (mc : MemoryCard) (s : Save)
    (hV : Valid mc) (hval : s.is_valid = true)
    (hfn20 : s.filename.length = 20) (hnz : ∀ x ∈ s.filename, x ≠ 0)
    (hascii : ∀ x ∈ s.filename, x < 0x80)
    (hdecroots : ∀ r ∈ rootIndexes mc,
      (framesGet mc r).filenameDecodes = true)
    (hfree : s.blocks ≤ (freeIndexes mc).length) :
    ∃ mc' L, add_save mc s = (none, mc') ∧ get_saves mc' = .ok L ∧
      ∃ t ∈ L, t.filename = s.filename ∧ t.blocks = s.blocks ∧
        t.data = s.data := by
  obtain ⟨hmagic, hmod, hdiv⟩ := (is_valid_spec s).mp hval
  have h15f := hV.1
  have h15d := hV.2.1
  have hlen : s.data.length = 8192 * s.blocks := by
    have hdvd : 8192 ∣ s.data.length := Nat.dvd_of_mod_eq_zero hmod
    have hc := Nat.div_mul_cancel hdvd
    rw [hdiv] at hc
    omega
  have hb1 : 0 < s.blocks := by
    rcases Nat.eq_zero_or_pos s.blocks with h0 | h1
    · exfalso
      have hdl : s.data.length = 0 := by omega
      have hdata : s.data = [] := List.length_eq_zero.mp hdl
      unfold Save.metadata_magic at hmagic
      rw [hdata] at hmagic
      simp [cvalue] at hmagic
    · exact h1
  have hid : ¬ 8 < (s.filename.drop 12).length := by
    rw [List.length_drop, hfn20]
    omega
  have hadd1 : (add_save mc s).1 = none :=
    add_save_none mc s hfree hid (by omega)
  have hadd : add_save mc s = (none, (add_save mc s).2) := by
    rw [← hadd1]
  have hV' := add_save_valid_preserved mc _ s hV hadd
  obtain ⟨h15f', h15d', hcs', hnd', hiff', hok'⟩ := valid_parts _ hV'
  obtain ⟨hble, -, -, hunch, hwrit⟩ := add_save_ok_inv mc _ s h15f h15d hadd
  have hdecpost : ∀ r ∈ rootIndexes (add_save mc s).2,
      (framesGet (add_save mc s).2 r).filenameDecodes = true := by
    intro r hr
    by_cases hall : ∀ i ∈ List.range s.blocks, (freeIndexes mc).getD i 0 ≠ r
    · have heqf := (hunch r hall).1
      rw [heqf]
      refine hdecroots r ((mem_rootIndexes mc r).mpr
        ⟨((mem_rootIndexes _ r).mp hr).1, ?_⟩)
      have hst := ((mem_rootIndexes _ r).mp hr).2
      rw [heqf] at hst
      exact hst
    · push_neg at hall
      obtain ⟨k, hk, hkr⟩ := hall
      rw [← hkr, (hwrit k hk).1]
      exact writtenFrame_decodes s (freeIndexes mc) k _ hfn20 hnz hascii
  have hdecok : ∀ r ∈ rootIndexes (add_save mc s).2,
      ∃ t, get_save_at_index (add_save mc s).2 r = .ok t := by
    intro r hr
    obtain ⟨tl, htl⟩ :=
      gatherSave_head _ r _ ((mem_rootIndexes _ r).mp hr).1 (hok' r hr)
    exact ⟨_, get_save_at_index_ok_of _ r r tl (htl ▸ hok' r hr)
      (hdecpost r hr)⟩
  have hext : ∀ r ∈ rootIndexes (add_save mc s).2,
      get_save_at_index (add_save mc s).2 r =
        .ok (extractSave (add_save mc s).2 r) := by
    intro r hr
    obtain ⟨t, ht⟩ := hdecok r hr
    unfold extractSave
    rw [ht]
  have hL := mapM_eq_ok_map (get_save_at_index (add_save mc s).2)
    (extractSave (add_save mc s).2) (rootIndexes (add_save mc s).2) hext
  have hwalk0 := add_save_new_chain mc _ s h15f h15d hb1 hadd
  have ha0mem : (freeIndexes mc).getD 0 0 ∈ freeIndexes mc := by
    rw [getD_eq_getElem _ 0 (by omega)]
    exact List.getElem_mem ..
  have ha015 : (freeIndexes mc).getD 0 0 < 15 :=
    ((mem_freeIndexes mc _).mp ha0mem).1
  have hwf0 := hwrit 0 (List.mem_range.mpr hb1)
  have hstate0 : (framesGet (add_save mc s).2
      ((freeIndexes mc).getD 0 0)).block_state = BLOCK_FIRST := by
    rw [hwf0.1, writtenFrame_block_state, if_pos rfl]
  have ha0root : (freeIndexes mc).getD 0 0 ∈ rootIndexes (add_save mc s).2 :=
    (mem_rootIndexes _ _).mpr ⟨ha015, hstate0⟩
  obtain ⟨tl0, htl0⟩ := gatherSave_head _ _ _ ha015 hwalk0
  have hdec0 := get_save_at_index_ok_of _ _ _ tl0 (htl0 ▸ hwalk0)
    (hdecpost _ ha0root)
  have hfname : (framesGet (add_save mc s).2
      ((freeIndexes mc).getD 0 0)).filename = s.filename := by
    rw [hwf0.1]
    obtain ⟨hc, hp, hi2⟩ := writtenFrame_name_fields s (freeIndexes mc) 0
      (framesGet mc ((freeIndexes mc).getD 0 0))
    unfold DirectoryFrame.filename
    rw [hc, hp, hi2]
    rw [setCharField, if_pos (by rw [List.length_take]; omega)]
    rw [setCharField, if_pos (by rw [List.length_take, List.length_drop]; omega)]
    rw [setCharField, if_pos (by rw [List.length_drop]; omega)]
    rw [cvalue_eq_self _ (fun x hx => hnz x (List.take_subset _ _ hx))]
    rw [cvalue_eq_self _ (fun x hx =>
      hnz x (List.drop_subset 2 _ (List.take_subset _ _ hx)))]
    rw [cvalue_eq_self _ (fun x hx => hnz x (List.drop_subset _ _ hx))]
    have hdd : (s.filename.drop 2).drop 10 = s.filename.drop 12 := by
      rw [List.drop_drop]
    rw [← hdd, List.append_assoc, List.take_append_drop, List.take_append_drop]
  have hdata0 : (((List.range s.blocks).map
      (fun k => (freeIndexes mc).getD k 0)).map
        (dataGet (add_save mc s).2)).flatten = s.data := by
    rw [List.map_map]
    have hcongr : (List.range s.blocks).map
        ((dataGet (add_save mc s).2) ∘ (fun k => (freeIndexes mc).getD k 0)) =
        (List.range s.blocks).map
          (fun i => (s.data.drop (8192 * i)).take 8192) := by
      apply List.map_congr_left
      intro i hi
      have hw2 := (hwrit i hi).2
      simp only [Function.comp]
      rw [hw2]
      rfl
    rw [hcongr, flatten_chunks s.data s.blocks hlen]
  refine ⟨(add_save mc s).2, _, hadd, hL, ?_⟩
  have hmem := List.mem_map_of_mem (extractSave (add_save mc s).2) ha0root
  have hgval : extractSave (add_save mc s).2 ((freeIndexes mc).getD 0 0) =
      Save.mk ((framesGet (add_save mc s).2
          ((freeIndexes mc).getD 0 0)).filename)
        (((((freeIndexes mc).getD 0 0) :: tl0).map
          (dataGet (add_save mc s).2)).flatten) := by
    unfold extractSave
    rw [hdec0]
  have hdataeq : (((((freeIndexes mc).getD 0 0) :: tl0).map
      (dataGet (add_save mc s).2)).flatten) = s.data := by
    rw [← htl0]
    exact hdata0
  refine ⟨_, hmem, ?_, ?_, ?_⟩
  · rw [hgval]
    exact hfname
  · rw [hgval]
    show Save.blocks _ = s.blocks
    unfold Save.blocks
    rw [hdataeq]
  · rw [hgval]
    exact hdataeq

/-- Witness for C1 (amended): adding the valid one-block save to a fresh
card and reading it back. -/
theorem claim1_witness :
    Valid freshCard ∧ exSave.is_valid = true ∧
    exSave.filename.length = 20 ∧ (∀ x ∈ exSave.filename, x ≠ 0) ∧
    (∀ x ∈ exSave.filename, x < 0x80) ∧
    (∀ r ∈ rootIndexes freshCard,
      (framesGet freshCard r).filenameDecodes = true) ∧
    exSave.blocks ≤ (freeIndexes freshCard).length ∧
    (∃ mc' L, add_save freshCard exSave = (none, mc') ∧
      get_saves mc' = .ok L ∧ ∃ t ∈ L, t.filename = exSave.filename ∧
        t.blocks = exSave.blocks ∧ t.data = exSave.data) := by
  have hV : Valid freshCard := ⟨rfl, rfl, [], by decide, by decide, by decide⟩
  exact ⟨hV, exSave_is_valid, by decide, by decide, by decide, by decide,
    by decide,
    claim1_add_get_saves_roundtrip freshCard exSave hV exSave_is_valid
      (by decide) (by decide) (by decide) (by decide) (by decide)⟩

/-- Counterexample to C1 as stated: on a card whose frame 0 is a First frame
whose `next_block` points at itself, the premises of the claim all hold —
the save is valid, its filename has exactly 20 characters, and 14 frames are
Available — and `add_save` succeeds, yet `get_saves` returns no list at all:
enumeration aborts on the corrupt chain, so no list returned by `get_saves`
contains the added save. -/
theorem claim1_counterexample :
    exSave.is_valid = true ∧ exSave.filename.length = 20 ∧
    (∀ x ∈ exSave.filename, x ≠ 0) ∧
    exSave.blocks ≤ (freeIndexes selfLoopCard).length ∧
    (add_save selfLoopCard exSave).1 = none ∧
    (∀ L, get_saves (add_save selfLoopCard exSave).2 ≠ .ok L) := by
  have h15f : selfLoopCard.frames.length = 15 := by decide
  have h15d : selfLoopCard.data.length = 15 := by decide
  have hadd1 : (add_save selfLoopCard exSave).1 = none :=
    add_save_none selfLoopCard exSave (by decide) (by decide)
      (by rw [exSave_data_length]; decide)
  have hadd : add_save selfLoopCard exSave =
      (none, (add_save selfLoopCard exSave).2) := by
    rw [← hadd1]
  obtain ⟨-, -, -, hunch, -⟩ :=
    add_save_ok_inv selfLoopCard _ exSave h15f h15d hadd
  have hfr0 : framesGet (add_save selfLoopCard exSave).2 0 =
      framesGet selfLoopCard 0 := by
    refine (hunch 0 ?_).1
    intro i hi hcontra
    have hb : exSave.blocks = 1 := by decide
    rw [hb] at hi
    have hi0 : i = 0 := by simpa using hi
    subst hi0
    rw [show (freeIndexes selfLoopCard).getD 0 0 = 1 from by decide] at hcontra
    exact absurd hcontra (by decide)
  have hloop : (framesGet (add_save selfLoopCard exSave).2 0).next_block = 0 := by
    rw [hfr0]
    decide
  have hfirst0 : (framesGet (add_save selfLoopCard exSave).2 0).block_state =
      BLOCK_FIRST := by
    rw [hfr0]
    decide
  have hg : gatherSave (add_save selfLoopCard exSave).2 0 =
      .error MCError.corruptChain := by
    unfold gatherSave
    rw [show (16 : Nat) = 15 + 1 from rfl, gatherAux_succ,
      if_neg (by omega), if_pos (by omega), if_pos (by rw [hloop])]
  have h0root : 0 ∈ rootIndexes (add_save selfLoopCard exSave).2 :=
    (mem_rootIndexes _ _).mpr ⟨by omega, hfirst0⟩
  refine ⟨exSave_is_valid, by decide, by decide, by decide, hadd1, ?_⟩
  intro L hok
  obtain ⟨y, hy, -⟩ := mapM_ok_mem _ _ _ hok 0 h0root
  rw [get_save_at_index_error _ 0 _ hg] at hy
  cases hy

/-- C5 (evidence for the code bug): when no slot save's filename matches the
delete target, `delete_save` leaves `index` as `None` and the subsequent
`directory_frames[None]` raises `TypeError` — not the claimed `SaveNotFound`
— with every frame and data block unchanged (the post-state is the input
image). -/
theorem claim5_delete_absent_typeerror (mc : MemoryCard) (target : Save)
    (slots : List (Nat × Save)) (hs : get_slot_saves mc = .ok slots)
    (hnone : ∀ p ∈ slots, p.2.filename ≠ target.filename) :
    delete_save mc target = (some MCError.typeError, mc) := by
  have hfil : slots.filter (fun p => decide (p.2.filename = target.filename)) = [] := by
    rw [List.filter_eq_nil_iff]
    intro p hp
    simpa using hnone p hp
  simp [delete_save, hs, hfil]

/-- Witness for C5: deleting a save from a fresh (empty) card raises the
`TypeError` and leaves the card unchanged. -/
theorem claim5_witness :
    get_slot_saves freshCard = .ok [] ∧
    delete_save freshCard exSave = (some MCError.typeError, freshCard) :=
  ⟨by decide,
   claim5_delete_absent_typeerror freshCard exSave [] (by decide)
     (by intro p hp; cases hp)⟩

/-- C6 (amended): chain traversal starting at a self-looping frame fails with
`CorruptChain` (the `sys.exit(1)` abort; a `NameError` in practice since
`sys` is never imported), and — contrary to the original claim — the failure
is NOT isolated: when such a chain is rooted at a First frame, `get_saves`
aborts entirely, so no other save is enumerated either. -/
theorem claim6_selfloop_corrupt_chain (mc : MemoryCard) (i : Nat)
    (h15 : i < 15) (hloop : (framesGet mc i).next_block = i) :
    gatherSave mc i = .error MCError.corruptChain ∧
    ((framesGet mc i).block_state = BLOCK_FIRST →
      ∀ L, get_saves mc ≠ .ok L) := by
  have hg : gatherSave mc i = .error MCError.corruptChain := by
    unfold gatherSave
    rw [show (16 : Nat) = 15 + 1 from rfl, gatherAux_succ,
      if_neg (by omega : ¬ i = 0xFF), if_pos h15, if_pos (by rw [hloop])]
  refine ⟨hg, fun hfirst L hok => ?_⟩
  have hi : i ∈ rootIndexes mc := by
    simp [rootIndexes, List.mem_filter, List.mem_range, h15, hfirst]
  obtain ⟨y, hy, -⟩ := mapM_ok_mem _ _ _ hok i hi
  rw [get_save_at_index_error mc i _ hg] at hy
  cases hy

/-- Witness for C6 (amended): the self-loop card aborts both the walk at
frame 0 and the whole enumeration, although slot 1 holds a perfectly good
save. -/
theorem claim6_witness :
    (framesGet selfLoopCard2 0).next_block = 0 ∧
    (framesGet selfLoopCard2 0).block_state = BLOCK_FIRST ∧
    gatherSave selfLoopCard2 0 = .error MCError.corruptChain ∧
    (∀ L, get_saves selfLoopCard2 ≠ .ok L) :=
  ⟨by decide, by decide,
   (claim6_selfloop_corrupt_chain selfLoopCard2 0 (by decide) (by decide)).1,
   (claim6_selfloop_corrupt_chain selfLoopCard2 0 (by decide) (by decide)).2
     (by decide)⟩

/-- Counterexample to C6 as stated: on a card whose frame 0 self-loops while
slot 1 holds an intact one-block save, the traversal failure is not isolated
to the broken entry — `get_saves` returns the `CorruptChain` failure and the
good save in slot 1 is not enumerated at all. -/
theorem claim6_counterexample :
    (framesGet selfLoopCard2 0).next_block = 0 ∧
    (framesGet selfLoopCard2 1).block_state = BLOCK_FIRST ∧
    gatherSave selfLoopCard2 1 = .ok [1] ∧
    get_saves selfLoopCard2 = .error MCError.corruptChain := by
  refine ⟨by decide, by decide, by decide, ?_⟩
  have hg : gatherSave selfLoopCard2 0 = .error MCError.corruptChain := by
    decide
  have hroots : rootIndexes selfLoopCard2 = [0, 1] := by decide
  unfold get_saves
  rw [hroots, List.mapM_cons, get_save_at_index_error _ 0 _ hg]
  rfl

/-- Witness for C9: the four detection outcomes at concrete inputs. -/
theorem claim9_witness :
    detect_offset [77, 67] = .ok 0 ∧
    detect_offset [0, 80, 77, 86] = .ok 0x80 ∧
    detect_offset [49, 50, 51, 45, 52, 53, 54, 45, 83, 84, 68] = .ok 0xF40 ∧
    detect_offset [1, 2, 3] = .error .unrecognizedFormat :=
  ⟨(claim9_detect_offset _).1 (by decide),
   (claim9_detect_offset _).2.1 (by decide),
   (claim9_detect_offset _).2.2.1 (by decide),
   (claim9_detect_offset _).2.2.2 (by decide) (by decide) (by decide)⟩

end Ps1mc
